import Mathlib

/-!
Shallow embedding of OpenCache's reference simulator
(`generator/verify/sim_cache.py`) together with the address-field helpers
it uses.  Python lists indexed by set/way/word are modelled as total
functions (out-of-range indices are never observed by the translated
code); Python's `None` becomes `Option`; 0/1 flag integers become `Bool`
where only truthiness is observed (`valid_array`, `dirty_array`) and stay
`Nat` where the source compares with a number (`prev_web`).  Code paths
that would raise in Python (indexing a list with `None`) are modelled by
`Option`-valued operations returning `none`.

The constant `DRAM_DELAY` comes from `generator/verify/sim_dram.py` and
the geometry fields come from the cache-config object; both are kept as
parameters of a configuration record `Cfg` here, with the geometry
relations the spec states collected in `Cfg.WF`.
-/

set_option synthInstance.maxSize 1024
set_option maxHeartbeats 1000000

namespace OpenCacheSim

/-- Replacement policies, mirroring `policy.ReplacementPolicy`. -/
inductive RP where
  | NONE
  | FIFO
  | LRU
  | RANDOM
deriving DecidableEq

/-- Configuration record: the fields `cache_config.set_local_config` copies
onto `sim_cache`, plus the `DRAM_DELAY` constant of `sim_dram.py` and the
relevant entries of the global options object (`OPTS.replacement_policy`,
`OPTS.data_hazard`). -/
structure Cfg where
  tag_size : Nat
  set_size : Nat
  offset_size : Nat
  word_size : Nat
  words_per_line : Nat
  num_ways : Nat
  num_rows : Nat
  num_masks : Nat
  write_size : Nat
  replacement_policy : RP
  data_hazard : Bool
  DRAM_DELAY : Nat

/-- `self.address_size`: the spec's geometry invariant
`tag_size + set_size + offset_size == address_size`. -/
def Cfg.address_size (c : Cfg) : Nat :=
  c.tag_size + c.set_size + c.offset_size

/-- Well-formedness of a configuration, from the derivations the spec
states for the geometry (`num_rows` rows indexed by the set field, at
least one way, and write masks covering the whole word when present). -/
def Cfg.WF (c : Cfg) : Prop :=
  0 < c.num_ways ∧ 0 < c.num_rows ∧ c.num_rows = 2 ^ c.set_size ∧
    (c.num_masks = 0 ∨ c.num_masks * c.write_size = c.word_size)

instance (c : Cfg) : Decidable c.WF := by
  unfold Cfg.WF
  infer_instance

/-- The mutable state of `sim_cache`.  The first index of each array is
the set, the second the way, the third (for `data_array`) the word. -/
structure sim_cache where
  valid_array : Nat → Nat → Bool
  dirty_array : Nat → Nat → Bool
  tag_array : Nat → Nat → Nat
  data_array : Nat → Nat → Nat → Nat
  prev_hit : Bool
  prev_web : Nat
  prev_set : Option Nat
  fifo_array : Nat → Nat
  lru_array : Nat → Nat → Nat
  random : Nat
  dram : Nat → Nat → Nat
  dram_stalls : Nat

/-- Number of binary digits Python's `"{0:b}".format` prints for `x`
(at least one digit: `0` prints as `"0"`), computed with an explicit
fuel so that it reduces by kernel evaluation. -/
def bitLenFuel : Nat → Nat → Nat
  | 0, _ => 0
  | fuel + 1, x => if x = 0 then 0 else bitLenFuel fuel (x / 2) + 1

/-- Length of `"{0:b}".format x`. -/
def pyBinLen (x : Nat) : Nat :=
  max 1 (bitLenFuel x x)

/-- Length of `"{0:0{1}b}".format x w`: zero-padded to width `w`, but
never shorter than the plain binary print of `x`. -/
def fmtLen (w x : Nat) : Nat :=
  max w (pyBinLen x)

/-- `sim_cache.merge_address`: concatenate the zero-padded binary strings
of tag, set and offset and read the result as one binary number.  A
component too large for its field (or a field of width 0, which still
prints one digit) widens the corresponding string, exactly as in the
Python string concatenation. -/
def merge_address (c : Cfg) (tag_decimal set_decimal offset_decimal : Nat) : Nat :=
  (tag_decimal * 2 ^ fmtLen c.set_size set_decimal + set_decimal) *
      2 ^ fmtLen c.offset_size offset_decimal +
    offset_decimal

/-- `sim_cache.parse_address`: slice the zero-padded binary string of the
address.  `L` is the length of the printed string; taking the first `k`
characters of an `L`-character binary string yields `a / 2^(L - min k L)`
and a slice `[i:j]` yields `(a / 2^(L - min j L)) % 2^(min j L - min i L)`.
For the offset the source slices `[-offset_size:]`, and Python's `[-0:]`
is the whole string, so a zero-width offset field returns the whole
address.  One caveat: when the tag or set slice is empty (`tag_size = 0`,
or `set_size = 0`), Python's `int('', 2)` raises ValueError instead of
returning a value, while this model returns 0 for the empty slice;
round-trip theorems therefore require those field widths to be at least
1, keeping every slice nonempty and the model exact on their domain. -/
def parse_address (c : Cfg) (address : Nat) : Nat × Nat × Nat :=
  let L := fmtLen c.address_size address
  let tagEnd := min c.tag_size L
  let setEnd := min (c.tag_size + c.set_size) L
  let tag_decimal := address / 2 ^ (L - tagEnd)
  let set_decimal := (address / 2 ^ (L - setEnd)) % 2 ^ (setEnd - tagEnd)
  let offset_decimal :=
    if c.offset_size = 0 then address else address % 2 ^ min c.offset_size L
  (tag_decimal, set_decimal, offset_decimal)

/-- `sim_cache.find_way`: first way of the address' set that is valid and
holds the address' tag, `none` when the address misses. -/
def find_way (c : Cfg) (s : sim_cache) (address : Nat) : Option Nat :=
  let p := parse_address c address
  (List.range c.num_ways).find? fun way =>
    s.valid_array p.2.1 way && (s.tag_array p.2.1 way == p.1)

/-- `sim_cache.is_dirty`: dirty bit of the way holding the address,
`none` when the address is not cached. -/
def is_dirty (c : Cfg) (s : sim_cache) (address : Nat) : Option Bool :=
  let sd := (parse_address c address).2.1
  (find_way c s address).map fun way => s.dirty_array sd way

/-- `sim_cache.update_random`: advance the free-running random counter by
a number of cycles (possibly negative, for the temporary revert in
`stall_cycles`) and reduce it modulo `num_ways`.  A no-op unless the
replacement policy is RANDOM. -/
def update_random (c : Cfg) (cycles : Int) (s : sim_cache) : sim_cache :=
  if c.replacement_policy = RP.RANDOM then
    { s with random := (((s.random : Int) + cycles) % (c.num_ways : Int)).toNat }
  else s

/-- `sim_cache.update_fifo`: increment the set's FIFO pointer modulo
`num_ways`.  A no-op unless the replacement policy is FIFO. -/
def update_fifo (c : Cfg) (set_decimal : Nat) (s : sim_cache) : sim_cache :=
  if c.replacement_policy = RP.FIFO then
    { s with
      fifo_array := fun x =>
        if x = set_decimal then (s.fifo_array set_decimal + 1) % c.num_ways
        else s.fifo_array x }
  else s

/-- `sim_cache.update_lru`: bring `way` to rank `num_ways - 1` and
decrement every rank above `way`'s old rank.  The Python loop only visits
ways `< num_ways`, hence the bound on the decremented branch.  A no-op
unless the replacement policy is LRU. -/
def update_lru (c : Cfg) (set_decimal way : Nat) (s : sim_cache) : sim_cache :=
  if c.replacement_policy = RP.LRU then
    { s with
      lru_array := fun x w =>
        if x = set_decimal then
          if w = way then c.num_ways - 1
          else if w < c.num_ways ∧ s.lru_array set_decimal way < s.lru_array set_decimal w then
            s.lru_array set_decimal w - 1
          else s.lru_array set_decimal w
        else s.lru_array x w }
  else s

/-- `sim_cache.way_to_evict`.  The LRU and RANDOM branches run a loop
that overwrites `way` at each matching index, so they return the *last*
way of rank 0 resp. the *last* invalid way; the LRU branch returns
Python's `None` (modelled `none`) when no way has rank 0. -/
def way_to_evict (c : Cfg) (s : sim_cache) (set_decimal : Nat) : Option Nat :=
  match c.replacement_policy with
  | RP.NONE => some 0
  | RP.FIFO => some (s.fifo_array set_decimal)
  | RP.LRU =>
    (List.range c.num_ways).foldl
      (fun acc i => if s.lru_array set_decimal i = 0 then some i else acc) none
  | RP.RANDOM =>
    match (List.range c.num_ways).foldl
        (fun acc i => if s.valid_array set_decimal i = false then some i else acc) none with
    | some way => some way
    | none => some s.random

/-- `sim_cache.is_data_hazard`. -/
def is_data_hazard (c : Cfg) (s : sim_cache) (address : Nat) : Bool :=
  if !c.data_hazard then false
  else
    let set_decimal := (parse_address c address).2.1
    match s.prev_set with
    | none => false
    | some ps =>
      if set_decimal ≠ ps then false
      else if c.replacement_policy = RP.LRU then true
      else (s.prev_hit && (s.prev_web == 0)) || !s.prev_hit

/-- Main-memory line index of set `set_decimal` under tag `tag`:
`(tag << set_size) + set_decimal`. -/
def lineAddr (c : Cfg) (tag set_decimal : Nat) : Nat :=
  tag * 2 ^ c.set_size + set_decimal

/-- `sim_cache.request`: prepare the arrays for a request of `address`
and return the valid way.  Returns `none` exactly where the Python code
would index an array with `None` (an LRU set without a rank-0 way). -/
def request (c : Cfg) (s : sim_cache) (address : Nat) : Option (sim_cache × Nat) :=
  let p := parse_address c address
  let tag_decimal := p.1
  let set_decimal := p.2.1
  let way? := find_way c s address
  -- Increment the random counter if cache enters WAIT_HAZARD
  let s1 := update_random c (if is_data_hazard c s address then 1 else 0) s
  match way? with
  | some way =>
    -- Hit
    let s2 := update_lru c set_decimal way s1
    let s3 := update_random c 1 s2
    some ({ s3 with prev_hit := true, prev_web := 1, prev_set := some set_decimal }, way)
  | none =>
    -- Miss
    match way_to_evict c s1 set_decimal with
    | none => none
    | some way_evict =>
      -- Write-back
      let s2 :=
        if s1.dirty_array set_decimal way_evict then
          let old_tag := s1.tag_array set_decimal way_evict
          let old_data := s1.data_array set_decimal way_evict
          update_random c ((c.DRAM_DELAY : Int) + 1)
            { s1 with
              dram := fun L i =>
                if L = lineAddr c old_tag set_decimal then old_data i else s1.dram L i }
        else s1
      -- Bring data line from DRAM
      let s3 :=
        { s2 with
          valid_array := fun x w =>
            if x = set_decimal ∧ w = way_evict then true else s2.valid_array x w
          dirty_array := fun x w =>
            if x = set_decimal ∧ w = way_evict then false else s2.dirty_array x w
          tag_array := fun x w =>
            if x = set_decimal ∧ w = way_evict then tag_decimal else s2.tag_array x w
          data_array := fun x w i =>
            if x = set_decimal ∧ w = way_evict then
              s2.dram (lineAddr c tag_decimal set_decimal) i
            else s2.data_array x w i }
      let s4 := update_fifo c set_decimal s3
      let s5 := update_lru c set_decimal way_evict s4
      let s6 := update_random c (1 + (c.DRAM_DELAY : Int) + 1) s5
      some ({ s6 with prev_hit := false, prev_web := 1, prev_set := some set_decimal }, way_evict)

/-- `sim_cache.read`: read the data word at `address`. -/
def read (c : Cfg) (s : sim_cache) (address : Nat) : Option (sim_cache × Nat) :=
  let p := parse_address c address
  (request c s address).map fun sw => (sw.1, sw.1.data_array p.2.1 sw.2 p.2.2)

/-- The masked write data of `sim_cache.write`: `data_input` laid over
`orig_data` according to the write mask (`wr_data` in the source; the
initial value is `0 if self.num_masks else data_input`).  The mask is the
Python bit string read from its right end: `mask i` is
`mask[-(i+1)] == "1"`. -/
def wr_mask_data (c : Cfg) (mask : Nat → Bool) (data_input orig_data : Nat) : Nat :=
  let wr0 := if c.num_masks = 0 then data_input else 0
  (List.range c.num_masks).foldl
    (fun acc i =>
      acc +
        ((if mask i then data_input else orig_data) / 2 ^ (i * c.write_size)) %
            2 ^ c.write_size *
          2 ^ (i * c.write_size))
    wr0

/-- The state updates `sim_cache.write` performs after its `request`
call returned way `way`: set the dirty bit, overwrite the addressed word
under the write mask, and record a write as the previous request. -/
def writeState (c : Cfg) (s1 : sim_cache) (set_decimal offset_decimal : Nat)
    (mask : Nat → Bool) (data_input way : Nat) : sim_cache :=
  let s2 :=
    { s1 with
      dirty_array := fun x w =>
        if x = set_decimal ∧ w = way then true else s1.dirty_array x w }
  let orig_data := s2.data_array set_decimal way offset_decimal
  let wr_data := wr_mask_data c mask data_input orig_data
  { s2 with
    data_array := fun x w i =>
      if x = set_decimal ∧ w = way ∧ i = offset_decimal then wr_data
      else s2.data_array x w i
    prev_web := 0 }

/-- `sim_cache.write`: write `data_input` to `address` over the write
mask. -/
def write (c : Cfg) (s : sim_cache) (address : Nat) (mask : Nat → Bool)
    (data_input : Nat) : Option sim_cache :=
  let p := parse_address c address
  (request c s address).map fun sw =>
    writeState c sw.1 p.2.1 p.2.2 mask data_input sw.2

/-- One iteration of the nested `for` loops of `sim_cache.flush`, at row
`rw.1` and way `rw.2`, threading the running stall count. -/
def flush_step (c : Cfg) (acc : sim_cache × Nat) (rw : Nat × Nat) : sim_cache × Nat :=
  let s := acc.1
  let stalls := acc.2 + 1
  let s := { s with dram_stalls := s.dram_stalls - 1 }
  if s.valid_array rw.1 rw.2 && s.dirty_array rw.1 rw.2 then
    let tg := s.tag_array rw.1 rw.2
    let data := s.data_array rw.1 rw.2
    let s :=
      { s with
        dirty_array := fun x y => if x = rw.1 ∧ y = rw.2 then false else s.dirty_array x y
        dram := fun L i => if L = lineAddr c tg rw.1 then data i else s.dram L i }
    ({ s with dram_stalls := c.DRAM_DELAY + 1 }, stalls + s.dram_stalls)
  else (s, stalls)

/-- The `(row, way)` pairs the two nested `for` loops of `flush` visit,
in visit order. -/
def flush_cells (c : Cfg) : List (Nat × Nat) :=
  (List.range c.num_rows).flatMap fun r => (List.range c.num_ways).map fun w => (r, w)

/-- `sim_cache.flush`: write dirty lines back to DRAM; returns the new
state together with the returned stall-cycle count. -/
def flush (c : Cfg) (s : sim_cache) : sim_cache × Nat :=
  -- Start with 1 stall cycle if cache enters FLUSH_HAZARD
  let stalls0 : Nat := if c.data_hazard && (s.prev_set == some 0) then 1 else 0
  let acc := (flush_cells c).foldl (flush_step c) (s, stalls0)
  -- Add 1 more cycle for switching to IDLE
  let stalls := acc.2 + 1
  let s1 := { acc.1 with dram_stalls := acc.1.dram_stalls - 1 }
  let s2 := update_random c (stalls : Int) s1
  let s3 := { s2 with prev_hit := false, prev_web := 1, prev_set := none }
  -- Return 1 less stall cycles since test_data.v waits 1 cycle
  (s3, stalls - 1)

/-- `sim_cache.reset`: invalidate every line, reset the previous-request
record and the policy metadata, and return the stall-cycle count
`num_rows + 1 - 1`. -/
def reset (c : Cfg) (s : sim_cache) : sim_cache × Nat :=
  let s1 :=
    { s with
      valid_array := fun _ _ => false
      dirty_array := fun _ _ => false
      tag_array := fun _ _ => 0
      data_array := fun _ _ _ => 0
      prev_hit := false
      prev_web := 1
      prev_set := none
      fifo_array := if c.replacement_policy = RP.FIFO then fun _ => 0 else s.fifo_array
      lru_array := if c.replacement_policy = RP.LRU then fun _ _ => 0 else s.lru_array }
  let s2 :=
    if c.replacement_policy = RP.RANDOM then
      update_random c ((c.num_rows : Int) + 1) { s1 with random := 0 }
    else s1
  (s2, c.num_rows + 1 - 1)

/-- `sim_cache.reset_dram`: fill the DRAM with (here: arbitrary) data and
clear the remaining DRAM stall count.  The random initial contents are a
parameter. -/
def reset_dram (dramInit : Nat → Nat → Nat) (s : sim_cache) : sim_cache :=
  { s with dram := dramInit, dram_stalls := 0 }

/-- `self.dram_stalls = v` as a state transformer. -/
def set_dram_stalls (s : sim_cache) (v : Nat) : sim_cache :=
  { s with dram_stalls := v }

/-- `sim_cache.stall_cycles`: predicted stall cycles of a request,
together with the state the call leaves behind (it zeroes `dram_stalls`
on a miss, and temporarily bumps the random counter).  Returns `none`
exactly where the Python code would index `dirty_array` with `None`. -/
def stall_cycles (c : Cfg) (s : sim_cache) (address : Nat) : Option (sim_cache × Nat) :=
  let n0 : Nat := if is_data_hazard c s address then 1 else 0
  -- temporarily advance the random counter over the WAIT_HAZARD cycle
  let s1 := if is_data_hazard c s address then update_random c 1 s else s
  match find_way c s1 address with
  | some _ =>
    let s2 := if is_data_hazard c s1 address then update_random c (-1) s1 else s1
    some (s2, n0)
  | none =>
    -- 1 cycle in COMPARE, plus waiting for a still-busy DRAM
    let n1 := n0 + 1 + s1.dram_stalls
    let s2 := set_dram_stalls s1 0
    let set_decimal := (parse_address c address).2.1
    match way_to_evict c s2 set_decimal with
    | none => none
    | some evicted_way =>
      let n2 :=
        n1 + if s2.dirty_array set_decimal evicted_way then c.DRAM_DELAY * 2 + 1
             else c.DRAM_DELAY
      let s3 := if is_data_hazard c s2 address then update_random c (-1) s2 else s2
      some (s3, n2)

/-- The effect of `update_lru` on the rank function of one set, as a
standalone rank transformer. -/
def lruUpd (W : Nat) (r : Nat → Nat) (a : Nat) : Nat → Nat := fun w =>
  if w = a then W - 1
  else if w < W ∧ r a < r w then r w - 1
  else r w

/-- No two valid ways of one set hold the same tag (the spec's "at most
one way reports a tag hit per set"). -/
def TagUniq (c : Cfg) (s : sim_cache) : Prop :=
  ∀ sd, sd < c.num_rows → ∀ w1, w1 < c.num_ways → ∀ w2, w2 < c.num_ways →
    s.valid_array sd w1 = true → s.valid_array sd w2 = true →
    s.tag_array sd w1 = s.tag_array sd w2 → w1 = w2

instance (c : Cfg) (s : sim_cache) : Decidable (TagUniq c s) := by
  unfold TagUniq
  infer_instance

/-- Structural invariant of one LRU rank array: ranks are below
`num_ways`, a rank value shared by two distinct ways can only be 0, and
some way has rank 0. -/
def LruInv (W : Nat) (r : Nat → Nat) : Prop :=
  (∀ w, w < W → r w < W) ∧
  (∀ w1, w1 < W → ∀ w2, w2 < W → w1 ≠ w2 → r w1 = r w2 → r w1 = 0) ∧
  (∃ w, w < W ∧ r w = 0)

instance (W : Nat) (r : Nat → Nat) : Decidable (LruInv W r) := by
  unfold LruInv
  infer_instance

/-- One rank array is a bijection onto `0 .. W-1`: every rank is below
`W` and each value below `W` is taken by exactly one way. -/
def IsPerm (W : Nat) (r : Nat → Nat) : Prop :=
  (∀ w, w < W → r w < W) ∧
  (∀ w1, w1 < W → ∀ w2, w2 < W → r w1 = r w2 → w1 = w2) ∧
  (∀ v, v < W → ∃ w, w < W ∧ r w = v)

instance (W : Nat) (r : Nat → Nat) : Decidable (IsPerm W r) := by
  unfold IsPerm
  infer_instance

/-- The state invariant every simulator operation preserves: unique tags
per set and in-range replacement metadata. -/
def Inv (c : Cfg) (s : sim_cache) : Prop :=
  TagUniq c s ∧
  (c.replacement_policy = RP.FIFO →
    ∀ sd, sd < c.num_rows → s.fifo_array sd < c.num_ways) ∧
  (c.replacement_policy = RP.RANDOM → s.random < c.num_ways) ∧
  (c.replacement_policy = RP.LRU →
    ∀ sd, sd < c.num_rows → LruInv c.num_ways (s.lru_array sd))

instance (c : Cfg) (s : sim_cache) : Decidable (Inv c s) := by
  unfold Inv
  infer_instance

/-- States reachable through the simulator's public operations, starting
from `__init__` (a `reset` followed by `reset_dram` with arbitrary DRAM
contents). -/
inductive Reachable (c : Cfg) : sim_cache → Prop
  | init : ∀ s0 dramInit, Reachable c (reset_dram dramInit (reset c s0).1)
  | step_reset : ∀ {s}, Reachable c s → Reachable c (reset c s).1
  | step_flush : ∀ {s}, Reachable c s → Reachable c (flush c s).1
  | step_read : ∀ {s s' a v}, Reachable c s → read c s a = some (s', v) → Reachable c s'
  | step_write : ∀ {s s' a m d}, Reachable c s → write c s a m d = some s' → Reachable c s'
  | step_stall : ∀ {s s' a n}, Reachable c s → stall_cycles c s a = some (s', n) → Reachable c s'

/-- The state `request` produces on a hit at way `w` (the hit branch of
`request`, spelled out). -/
def request_hit_state (c : Cfg) (s : sim_cache) (address w : Nat) : sim_cache :=
  let set_decimal := (parse_address c address).2.1
  let s1 := update_random c (if is_data_hazard c s address then 1 else 0) s
  let s2 := update_lru c set_decimal w s1
  let s3 := update_random c 1 s2
  { s3 with prev_hit := true, prev_web := 1, prev_set := some set_decimal }

/-- The state `request` produces on a miss evicting way `way_evict` (the
miss branch of `request`, spelled out). -/
def request_miss_state (c : Cfg) (s : sim_cache) (address way_evict : Nat) : sim_cache :=
  let p := parse_address c address
  let tag_decimal := p.1
  let set_decimal := p.2.1
  let s1 := update_random c (if is_data_hazard c s address then 1 else 0) s
  let s2 :=
    if s1.dirty_array set_decimal way_evict then
      let old_tag := s1.tag_array set_decimal way_evict
      let old_data := s1.data_array set_decimal way_evict
      update_random c ((c.DRAM_DELAY : Int) + 1)
        { s1 with
          dram := fun L i =>
            if L = lineAddr c old_tag set_decimal then old_data i else s1.dram L i }
    else s1
  let s3 :=
    { s2 with
      valid_array := fun x w =>
        if x = set_decimal ∧ w = way_evict then true else s2.valid_array x w
      dirty_array := fun x w =>
        if x = set_decimal ∧ w = way_evict then false else s2.dirty_array x w
      tag_array := fun x w =>
        if x = set_decimal ∧ w = way_evict then tag_decimal else s2.tag_array x w
      data_array := fun x w i =>
        if x = set_decimal ∧ w = way_evict then
          s2.dram (lineAddr c tag_decimal set_decimal) i
        else s2.data_array x w i }
  let s4 := update_fifo c set_decimal s3
  let s5 := update_lru c set_decimal way_evict s4
  let s6 := update_random c (1 + (c.DRAM_DELAY : Int) + 1) s5
  { s6 with prev_hit := false, prev_web := 1, prev_set := some set_decimal }

/-! ### Concrete instances used to evaluate the model -/

/-- An arbitrary all-zero starting state (the fields `__init__` builds are
all overwritten by `reset` / `reset_dram`). -/
def init0 : sim_cache :=
  { valid_array := fun _ _ => false
    dirty_array := fun _ _ => false
    tag_array := fun _ _ => 0
    data_array := fun _ _ _ => 0
    prev_hit := false
    prev_web := 1
    prev_set := none
    fifo_array := fun _ => 0
    lru_array := fun _ _ => 0
    random := 0
    dram := fun _ _ => 0
    dram_stalls := 0 }

/-- Geometry with a zero-width offset field (one word per line): 1 tag
bit, 1 set bit, direct-mapped. -/
def cfgO0 : Cfg :=
  { tag_size := 1, set_size := 1, offset_size := 0, word_size := 4, words_per_line := 1
    num_ways := 1, num_rows := 2, num_masks := 0, write_size := 0
    replacement_policy := RP.NONE, data_hazard := true, DRAM_DELAY := 1 }

/-- Small direct-mapped geometry (2 tag bits, 1 set bit, 1 offset bit),
hazard detection off. -/
def cfgDnh : Cfg :=
  { tag_size := 2, set_size := 1, offset_size := 1, word_size := 4, words_per_line := 2
    num_ways := 1, num_rows := 2, num_masks := 0, write_size := 0
    replacement_policy := RP.NONE, data_hazard := false, DRAM_DELAY := 1 }

/-- Same direct-mapped geometry with hazard detection on. -/
def cfgDh : Cfg :=
  { cfgDnh with data_hazard := true }

/-- Two-way LRU geometry. -/
def cfgL2 : Cfg :=
  { cfgDh with num_ways := 2, replacement_policy := RP.LRU }

/-- One-way LRU geometry. -/
def cfgL1 : Cfg :=
  { cfgDh with replacement_policy := RP.LRU }

/-- Two-way RANDOM geometry. -/
def cfgR2 : Cfg :=
  { cfgDh with num_ways := 2, replacement_policy := RP.RANDOM }

/-- Two-way FIFO geometry. -/
def cfgF2 : Cfg :=
  { cfgDh with num_ways := 2, replacement_policy := RP.FIFO }

/-- A state of `cfgDnh` with nothing cached but one remaining DRAM stall
cycle pending (as e.g. after a flush whose last visited line was dirty,
with a larger `DRAM_DELAY`). -/
def stStall : sim_cache :=
  { init0 with dram_stalls := 1 }

/-- A state of `cfgDh` right after a write hit to set 0: the line
`(set 0, way 0)` is valid and dirty under tag 0, and the previous-request
record shows a write hit to set 0. -/
def stWhit : sim_cache :=
  { init0 with
    valid_array := fun sd w => sd == 0 && w == 0
    dirty_array := fun sd w => sd == 0 && w == 0
    tag_array := fun _ _ => 0
    data_array := fun sd w i => if sd = 0 ∧ w = 0 ∧ i = 0 then 9 else 0
    prev_hit := true
    prev_web := 0
    prev_set := some 0 }

/-- Reset-then-`reset_dram` initial state of a configuration, with
all-zero DRAM contents. -/
def initState (c : Cfg) : sim_cache :=
  reset_dram (fun _ _ => 0) (reset c init0).1

end OpenCacheSim

namespace OpenCacheSim

/-! ### Field-preservation lemmas for the metadata updaters -/

@[simp] theorem update_random_valid_array (c : Cfg) (k : Int) (s : sim_cache) :
    (update_random c k s).valid_array = s.valid_array := by
  unfold update_random; split <;> rfl

@[simp] theorem update_random_dirty_array (c : Cfg) (k : Int) (s : sim_cache) :
    (update_random c k s).dirty_array = s.dirty_array := by
  unfold update_random; split <;> rfl

@[simp] theorem update_random_tag_array (c : Cfg) (k : Int) (s : sim_cache) :
    (update_random c k s).tag_array = s.tag_array := by
  unfold update_random; split <;> rfl

@[simp] theorem update_random_data_array (c : Cfg) (k : Int) (s : sim_cache) :
    (update_random c k s).data_array = s.data_array := by
  unfold update_random; split <;> rfl

@[simp] theorem update_random_prev_hit (c : Cfg) (k : Int) (s : sim_cache) :
    (update_random c k s).prev_hit = s.prev_hit := by
  unfold update_random; split <;> rfl

@[simp] theorem update_random_prev_web (c : Cfg) (k : Int) (s : sim_cache) :
    (update_random c k s).prev_web = s.prev_web := by
  unfold update_random; split <;> rfl

@[simp] theorem update_random_prev_set (c : Cfg) (k : Int) (s : sim_cache) :
    (update_random c k s).prev_set = s.prev_set := by
  unfold update_random; split <;> rfl

@[simp] theorem update_random_fifo_array (c : Cfg) (k : Int) (s : sim_cache) :
    (update_random c k s).fifo_array = s.fifo_array := by
  unfold update_random; split <;> rfl

@[simp] theorem update_random_lru_array (c : Cfg) (k : Int) (s : sim_cache) :
    (update_random c k s).lru_array = s.lru_array := by
  unfold update_random; split <;> rfl

@[simp] theorem update_random_dram (c : Cfg) (k : Int) (s : sim_cache) :
    (update_random c k s).dram = s.dram := by
  unfold update_random; split <;> rfl

@[simp] theorem update_random_dram_stalls (c : Cfg) (k : Int) (s : sim_cache) :
    (update_random c k s).dram_stalls = s.dram_stalls := by
  unfold update_random; split <;> rfl

theorem update_random_of_ne (c : Cfg) (k : Int) (s : sim_cache)
    (h : ¬ c.replacement_policy = RP.RANDOM) : update_random c k s = s := by
  unfold update_random; simp [h]

theorem update_random_random_lt (c : Cfg) (k : Int) (s : sim_cache)
    (hW : 0 < c.num_ways) (hp : c.replacement_policy = RP.RANDOM) :
    (update_random c k s).random < c.num_ways := by
  unfold update_random
  rw [if_pos hp]
  show ((((s.random : Int)) + k) % (c.num_ways : Int)).toNat < c.num_ways
  have hW' : ((0:Int)) < (c.num_ways : Int) := by exact_mod_cast hW
  have h1 : 0 ≤ ((s.random : Int) + k) % (c.num_ways : Int) :=
    Int.emod_nonneg _ (by exact_mod_cast hW.ne')
  have h2 : ((s.random : Int) + k) % (c.num_ways : Int) < (c.num_ways : Int) :=
    Int.emod_lt_of_pos _ hW'
  omega

theorem update_random_random_lt_of_lt (c : Cfg) (k : Int) (s : sim_cache)
    (hW : 0 < c.num_ways) (h : s.random < c.num_ways) :
    (update_random c k s).random < c.num_ways := by
  by_cases hp : c.replacement_policy = RP.RANDOM
  · exact update_random_random_lt c k s hW hp
  · rw [update_random_of_ne c k s hp]; exact h

/-- Bumping the random counter by one and reverting restores the state
whenever the counter is within range (as it is in every reachable
state). -/
theorem update_random_bump_revert (c : Cfg) (s : sim_cache)
    (hW : 0 < c.num_ways) (hr : c.replacement_policy = RP.RANDOM → s.random < c.num_ways) :
    update_random c (-1) (update_random c 1 s) = s := by
  by_cases hp : c.replacement_policy = RP.RANDOM
  · have hlt := hr hp
    unfold update_random
    rw [if_pos hp, if_pos hp]
    have hW' : ((0:Int)) < (c.num_ways : Int) := by exact_mod_cast hW
    have key : ((((((s.random : Int)) + 1) % (c.num_ways : Int)).toNat : Int) + (-1)) %
        (c.num_ways : Int) = (s.random : Int) := by
      have h0 : 0 ≤ ((s.random : Int) + 1) % (c.num_ways : Int) :=
        Int.emod_nonneg _ (by exact_mod_cast hW.ne')
      rw [Int.toNat_of_nonneg h0]
      have h1 : ((s.random : Int) + 1) % (c.num_ways : Int) + (-1) =
          ((s.random : Int) + 1) % (c.num_ways : Int) - 1 := by ring
      rw [h1]
      have h2 : (((s.random : Int) + 1) % (c.num_ways : Int) - 1) % (c.num_ways : Int) =
          ((s.random : Int) + 1 - 1) % (c.num_ways : Int) := by
        conv_rhs => rw [Int.sub_emod]
        rw [Int.sub_emod, Int.emod_emod_of_dvd]
        exact dvd_refl _
      rw [h2]
      have h3 : (s.random : Int) + 1 - 1 = (s.random : Int) := by ring
      rw [h3, Int.emod_eq_of_lt (by positivity) (by exact_mod_cast hlt)]
    rw [key]
    simp
  · rw [update_random_of_ne c 1 s hp, update_random_of_ne c (-1) s hp]

@[simp] theorem update_fifo_valid_array (c : Cfg) (sd : Nat) (s : sim_cache) :
    (update_fifo c sd s).valid_array = s.valid_array := by
  unfold update_fifo; split <;> rfl

@[simp] theorem update_fifo_dirty_array (c : Cfg) (sd : Nat) (s : sim_cache) :
    (update_fifo c sd s).dirty_array = s.dirty_array := by
  unfold update_fifo; split <;> rfl

@[simp] theorem update_fifo_tag_array (c : Cfg) (sd : Nat) (s : sim_cache) :
    (update_fifo c sd s).tag_array = s.tag_array := by
  unfold update_fifo; split <;> rfl

@[simp] theorem update_fifo_data_array (c : Cfg) (sd : Nat) (s : sim_cache) :
    (update_fifo c sd s).data_array = s.data_array := by
  unfold update_fifo; split <;> rfl

@[simp] theorem update_fifo_prev_hit (c : Cfg) (sd : Nat) (s : sim_cache) :
    (update_fifo c sd s).prev_hit = s.prev_hit := by
  unfold update_fifo; split <;> rfl

@[simp] theorem update_fifo_prev_web (c : Cfg) (sd : Nat) (s : sim_cache) :
    (update_fifo c sd s).prev_web = s.prev_web := by
  unfold update_fifo; split <;> rfl

@[simp] theorem update_fifo_prev_set (c : Cfg) (sd : Nat) (s : sim_cache) :
    (update_fifo c sd s).prev_set = s.prev_set := by
  unfold update_fifo; split <;> rfl

@[simp] theorem update_fifo_lru_array (c : Cfg) (sd : Nat) (s : sim_cache) :
    (update_fifo c sd s).lru_array = s.lru_array := by
  unfold update_fifo; split <;> rfl

@[simp] theorem update_fifo_random (c : Cfg) (sd : Nat) (s : sim_cache) :
    (update_fifo c sd s).random = s.random := by
  unfold update_fifo; split <;> rfl

@[simp] theorem update_fifo_dram (c : Cfg) (sd : Nat) (s : sim_cache) :
    (update_fifo c sd s).dram = s.dram := by
  unfold update_fifo; split <;> rfl

@[simp] theorem update_fifo_dram_stalls (c : Cfg) (sd : Nat) (s : sim_cache) :
    (update_fifo c sd s).dram_stalls = s.dram_stalls := by
  unfold update_fifo; split <;> rfl

theorem update_fifo_of_ne (c : Cfg) (sd : Nat) (s : sim_cache)
    (h : ¬ c.replacement_policy = RP.FIFO) : update_fifo c sd s = s := by
  unfold update_fifo; simp [h]

theorem update_fifo_fifo_array (c : Cfg) (sd : Nat) (s : sim_cache)
    (h : c.replacement_policy = RP.FIFO) :
    (update_fifo c sd s).fifo_array = fun x =>
      if x = sd then (s.fifo_array sd + 1) % c.num_ways else s.fifo_array x := by
  unfold update_fifo; rw [if_pos h]

@[simp] theorem update_lru_valid_array (c : Cfg) (sd way : Nat) (s : sim_cache) :
    (update_lru c sd way s).valid_array = s.valid_array := by
  unfold update_lru; split <;> rfl

@[simp] theorem update_lru_dirty_array (c : Cfg) (sd way : Nat) (s : sim_cache) :
    (update_lru c sd way s).dirty_array = s.dirty_array := by
  unfold update_lru; split <;> rfl

@[simp] theorem update_lru_tag_array (c : Cfg) (sd way : Nat) (s : sim_cache) :
    (update_lru c sd way s).tag_array = s.tag_array := by
  unfold update_lru; split <;> rfl

@[simp] theorem update_lru_data_array (c : Cfg) (sd way : Nat) (s : sim_cache) :
    (update_lru c sd way s).data_array = s.data_array := by
  unfold update_lru; split <;> rfl

@[simp] theorem update_lru_prev_hit (c : Cfg) (sd way : Nat) (s : sim_cache) :
    (update_lru c sd way s).prev_hit = s.prev_hit := by
  unfold update_lru; split <;> rfl

@[simp] theorem update_lru_prev_web (c : Cfg) (sd way : Nat) (s : sim_cache) :
    (update_lru c sd way s).prev_web = s.prev_web := by
  unfold update_lru; split <;> rfl

@[simp] theorem update_lru_prev_set (c : Cfg) (sd way : Nat) (s : sim_cache) :
    (update_lru c sd way s).prev_set = s.prev_set := by
  unfold update_lru; split <;> rfl

@[simp] theorem update_lru_fifo_array (c : Cfg) (sd way : Nat) (s : sim_cache) :
    (update_lru c sd way s).fifo_array = s.fifo_array := by
  unfold update_lru; split <;> rfl

@[simp] theorem update_lru_random (c : Cfg) (sd way : Nat) (s : sim_cache) :
    (update_lru c sd way s).random = s.random := by
  unfold update_lru; split <;> rfl

@[simp] theorem update_lru_dram (c : Cfg) (sd way : Nat) (s : sim_cache) :
    (update_lru c sd way s).dram = s.dram := by
  unfold update_lru; split <;> rfl

@[simp] theorem update_lru_dram_stalls (c : Cfg) (sd way : Nat) (s : sim_cache) :
    (update_lru c sd way s).dram_stalls = s.dram_stalls := by
  unfold update_lru; split <;> rfl

theorem update_lru_of_ne (c : Cfg) (sd way : Nat) (s : sim_cache)
    (h : ¬ c.replacement_policy = RP.LRU) : update_lru c sd way s = s := by
  unfold update_lru; simp [h]

theorem update_lru_lru_array (c : Cfg) (sd way : Nat) (s : sim_cache)
    (h : c.replacement_policy = RP.LRU) :
    (update_lru c sd way s).lru_array = fun x w =>
      if x = sd then lruUpd c.num_ways (s.lru_array sd) way w else s.lru_array x w := by
  unfold update_lru lruUpd; rw [if_pos h]

end OpenCacheSim

namespace OpenCacheSim

/-! ### Address-field arithmetic -/

theorem bitLenFuel_zero (fuel : Nat) : bitLenFuel fuel 0 = 0 := by
  cases fuel <;> simp [bitLenFuel]

theorem bitLenFuel_le : ∀ fuel x w, x ≤ fuel → x < 2 ^ w → bitLenFuel fuel x ≤ w := by
  intro fuel
  induction fuel with
  | zero => intro x w _ _; simp [bitLenFuel]
  | succ fuel ih =>
    intro x w hx hw
    by_cases h0 : x = 0
    · simp [bitLenFuel, h0]
    · have hx1 : 1 ≤ x := Nat.one_le_iff_ne_zero.mpr h0
      have hwpos : 1 ≤ w := by
        by_contra hc
        have : w = 0 := by omega
        subst this
        simp at hw
        omega
      simp only [bitLenFuel, if_neg h0]
      have hdiv : x / 2 < 2 ^ (w - 1) := by
        have h2 : (2:Nat) ^ w = 2 ^ (w - 1) * 2 := by
          rw [← pow_succ]
          congr 1
          omega
        rw [Nat.div_lt_iff_lt_mul (by norm_num)]
        omega
      have hfuel : x / 2 ≤ fuel := by
        have := Nat.div_lt_self hx1 (by norm_num : 1 < 2)
        omega
      have := ih (x / 2) (w - 1) hfuel hdiv
      omega

theorem pyBinLen_le {x w : Nat} (hx : x < 2 ^ w) (hw : 1 ≤ w) : pyBinLen x ≤ w := by
  unfold pyBinLen
  have := bitLenFuel_le x x w (le_refl x) hx
  omega

theorem fmtLen_eq {x w : Nat} (hx : x < 2 ^ w) (hw : 1 ≤ w) : fmtLen w x = w := by
  unfold fmtLen
  have := pyBinLen_le hx hw
  omega

theorem concat_lt {a b m n : Nat} (ha : a < 2 ^ m) (hb : b < 2 ^ n) :
    a * 2 ^ n + b < 2 ^ (m + n) := by
  have h1 : a * 2 ^ n + b < (a + 1) * 2 ^ n := by
    have := Nat.pos_pow_of_pos n (by norm_num : 0 < 2)
    nlinarith
  have h2 : (a + 1) * 2 ^ n ≤ 2 ^ m * 2 ^ n := Nat.mul_le_mul_right _ (by omega)
  calc a * 2 ^ n + b < (a + 1) * 2 ^ n := h1
    _ ≤ 2 ^ m * 2 ^ n := h2
    _ = 2 ^ (m + n) := (pow_add 2 m n).symm

/-- The set field extracted by `parse_address` always fits below
`2 ^ set_size`, hence indexes a real row of a well-formed geometry. -/
theorem parse_set_lt (c : Cfg) (a : Nat) (hW : c.WF) :
    (parse_address c a).2.1 < c.num_rows := by
  obtain ⟨-, -, hrows, -⟩ := hW
  show (a / 2 ^ (fmtLen c.address_size a - min (c.tag_size + c.set_size) (fmtLen c.address_size a))) %
      2 ^ (min (c.tag_size + c.set_size) (fmtLen c.address_size a) -
        min c.tag_size (fmtLen c.address_size a)) < c.num_rows
  rw [hrows]
  have hle : min (c.tag_size + c.set_size) (fmtLen c.address_size a) -
      min c.tag_size (fmtLen c.address_size a) ≤ c.set_size := by
    rcases le_total (c.tag_size + c.set_size) (fmtLen c.address_size a) with h | h
    · rw [min_eq_left h]
      omega
    · rw [min_eq_right h]
      omega
  calc _ < 2 ^ (min (c.tag_size + c.set_size) (fmtLen c.address_size a) -
        min c.tag_size (fmtLen c.address_size a)) :=
        Nat.mod_lt _ (Nat.pos_pow_of_pos _ (by norm_num))
    _ ≤ 2 ^ c.set_size := Nat.pow_le_pow_right (by norm_num) hle

end OpenCacheSim

namespace OpenCacheSim

/-- Round trip of `parse_address` after `merge_address` for geometries
whose tag, set and offset fields are all at least one bit wide and
components in range.  The tag-width hypothesis keeps the theorem off the
`tag_size = 0` geometries, where the Python source raises ValueError on
the empty tag slice (`int('', 2)`) rather than returning a triple. -/
theorem parse_merge_roundtrip (c : Cfg) (t s o : Nat)
    (hts : 1 ≤ c.tag_size)
    (hss : 1 ≤ c.set_size) (hos : 1 ≤ c.offset_size)
    (ht : t < 2 ^ c.tag_size) (hs : s < 2 ^ c.set_size) (ho : o < 2 ^ c.offset_size) :
    parse_address c (merge_address c t s o) = (t, s, o) := by
  have hfs : fmtLen c.set_size s = c.set_size := fmtLen_eq hs hss
  have hfo : fmtLen c.offset_size o = c.offset_size := fmtLen_eq ho hos
  have hmerge : merge_address c t s o = (t * 2 ^ c.set_size + s) * 2 ^ c.offset_size + o := by
    unfold merge_address
    rw [hfs, hfo]
  have hts : t * 2 ^ c.set_size + s < 2 ^ (c.tag_size + c.set_size) := concat_lt ht hs
  have hA : merge_address c t s o < 2 ^ c.address_size := by
    rw [hmerge]
    exact concat_lt hts ho
  have haspos : 1 ≤ c.address_size := by
    unfold Cfg.address_size
    omega
  have hL : fmtLen c.address_size (merge_address c t s o) = c.address_size :=
    fmtLen_eq hA haspos
  have hmin1 : min c.tag_size c.address_size = c.tag_size := by
    unfold Cfg.address_size
    omega
  have hmin2 : min (c.tag_size + c.set_size) c.address_size = c.tag_size + c.set_size := by
    unfold Cfg.address_size
    omega
  have hmin3 : min c.offset_size c.address_size = c.offset_size := by
    unfold Cfg.address_size
    omega
  have hsub1 : c.address_size - c.tag_size = c.set_size + c.offset_size := by
    unfold Cfg.address_size
    omega
  have hsub2 : c.address_size - (c.tag_size + c.set_size) = c.offset_size := by
    unfold Cfg.address_size
    omega
  have hsub3 : c.tag_size + c.set_size - c.tag_size = c.set_size := by omega
  show (_, _, _) = (t, s, o)
  rw [Prod.mk.injEq, Prod.mk.injEq]
  refine ⟨?_, ?_, ?_⟩
  · -- tag component
    show merge_address c t s o /
        2 ^ (fmtLen c.address_size (merge_address c t s o) -
          min c.tag_size (fmtLen c.address_size (merge_address c t s o))) = t
    rw [hL, hmin1, hsub1, hmerge]
    have hrewrite : (t * 2 ^ c.set_size + s) * 2 ^ c.offset_size + o =
        (s * 2 ^ c.offset_size + o) + t * 2 ^ (c.set_size + c.offset_size) := by
      rw [pow_add]
      ring
    rw [hrewrite, Nat.add_mul_div_right _ _ (Nat.pos_pow_of_pos _ (by norm_num)),
      Nat.div_eq_of_lt (concat_lt hs ho)]
    omega
  · -- set component
    show (merge_address c t s o /
        2 ^ (fmtLen c.address_size (merge_address c t s o) -
          min (c.tag_size + c.set_size) (fmtLen c.address_size (merge_address c t s o)))) %
        2 ^ (min (c.tag_size + c.set_size) (fmtLen c.address_size (merge_address c t s o)) -
          min c.tag_size (fmtLen c.address_size (merge_address c t s o))) = s
    rw [hL, hmin1, hmin2, hsub2, hsub3, hmerge]
    have hrewrite : (t * 2 ^ c.set_size + s) * 2 ^ c.offset_size + o =
        o + (t * 2 ^ c.set_size + s) * 2 ^ c.offset_size := by ring
    rw [hrewrite, Nat.add_mul_div_right _ _ (Nat.pos_pow_of_pos _ (by norm_num)),
      Nat.div_eq_of_lt ho]
    rw [Nat.zero_add, Nat.add_comm (t * 2 ^ c.set_size) s, Nat.add_mul_mod_self_right,
      Nat.mod_eq_of_lt hs]
  · -- offset component
    show (if c.offset_size = 0 then merge_address c t s o
        else merge_address c t s o %
          2 ^ min c.offset_size (fmtLen c.address_size (merge_address c t s o))) = o
    rw [if_neg (by omega), hL, hmin3, hmerge,
      Nat.add_comm ((t * 2 ^ c.set_size + s) * 2 ^ c.offset_size) o,
      Nat.add_mul_mod_self_right, Nat.mod_eq_of_lt ho]

end OpenCacheSim

namespace OpenCacheSim

/-- C10 (counterexample): with a zero-width offset field (one word per
line, `offset_size = 0`), `parse_address` does not invert
`merge_address`: for tag 1, set 0, offset 0 the merged address is 4
(Python prints one digit even for a width-0 field) and parsing it
returns offset 4, not 0 (`address_binary[-0:]` is the whole string). -/
theorem spec_c10_counterexample :
    cfgO0.offset_size = 0 ∧
    (1 < 2 ^ cfgO0.tag_size ∧ 0 < 2 ^ cfgO0.set_size ∧ 0 < 2 ^ cfgO0.offset_size) ∧
    merge_address cfgO0 1 0 0 = 4 ∧
    parse_address cfgO0 (merge_address cfgO0 1 0 0) = (1, 0, 4) ∧
    parse_address cfgO0 (merge_address cfgO0 1 0 0) ≠ (1, 0, 0) := by
  decide

/-- C10 (amended): for every geometry whose tag, set and offset fields
are all at least one bit wide, and every tag, set and offset in range,
`parse_address (merge_address tag set offset)` returns exactly
`(tag, set, offset)`.  (With a zero-width offset or set field the round
trip fails, see the counterexample; with a zero-width tag or set field
the Python source raises ValueError on the empty slice, so those
geometries are excluded as well.) -/
theorem spec_c10_amended (c : Cfg) (t s o : Nat)
    (hts : 1 ≤ c.tag_size) (hss : 1 ≤ c.set_size) (hos : 1 ≤ c.offset_size)
    (ht : t < 2 ^ c.tag_size) (hs : s < 2 ^ c.set_size) (ho : o < 2 ^ c.offset_size) :
    parse_address c (merge_address c t s o) = (t, s, o) :=
  parse_merge_roundtrip c t s o hts hss hos ht hs ho

/-- C10 (witness): the amended round trip evaluated at a concrete
geometry and concrete field values. -/
theorem spec_c10_witness :
    (1 ≤ cfgDh.tag_size ∧ 1 ≤ cfgDh.set_size ∧ 1 ≤ cfgDh.offset_size ∧
      3 < 2 ^ cfgDh.tag_size ∧ 1 < 2 ^ cfgDh.set_size ∧ 1 < 2 ^ cfgDh.offset_size) ∧
    parse_address cfgDh (merge_address cfgDh 3 1 1) = (3, 1, 1) :=
  ⟨by decide,
    spec_c10_amended cfgDh 3 1 1 (by decide) (by decide) (by decide) (by decide) (by decide)
      (by decide)⟩

end OpenCacheSim

namespace OpenCacheSim

/-! ### Helpers for the search loops -/

theorem find?_append_or {α : Type} (l1 l2 : List α) (p : α → Bool) :
    (l1 ++ l2).find? p =
      match l1.find? p with
      | some a => some a
      | none => l2.find? p := by
  induction l1 with
  | nil => simp
  | cons a l1 ih =>
    by_cases h : p a
    · simp [List.find?_cons_of_pos _ h, h]
    · simp only [List.cons_append, List.find?_cons_of_neg _ h, ih]

theorem foldl_range_succ {α : Type} (f : α → Nat → α) (n : Nat) (init : α) :
    (List.range (n + 1)).foldl f init = f ((List.range n).foldl f init) n := by
  rw [List.range_succ, List.foldl_append]
  rfl

/-- `find?` over `range n` yields the least index satisfying `p`. -/
theorem find?_range_eq_some {p : Nat → Bool} :
    ∀ {n w : Nat}, w < n → p w = true → (∀ j, j < w → p j = false) →
      (List.range n).find? p = some w := by
  intro n
  induction n with
  | zero => intro w hw; exact absurd hw (Nat.not_lt_zero w)
  | succ n ih =>
    intro w hw hp hmin
    rw [List.range_succ, find?_append_or]
    rcases Nat.lt_succ_iff_lt_or_eq.mp hw with h | h
    · rw [ih h hp hmin]
    · subst h
      have hnone : (List.range w).find? p = none := by
        rw [List.find?_eq_none]
        intro j hj
        simp only [List.mem_range] at hj
        simp [hmin j hj]
      rw [hnone]
      simp [hp]

/-- A fold that overwrites its accumulator at every matching index
returns its initial value when nothing matches. -/
theorem foldl_lastmatch_none {q : Nat → Prop} [DecidablePred q] :
    ∀ (n : Nat), (∀ i, i < n → ¬ q i) → ∀ (init : Option Nat),
      (List.range n).foldl (fun acc i => if q i then some i else acc) init = init := by
  intro n
  induction n with
  | zero => intro _ init; rfl
  | succ n ih =>
    intro h init
    rw [foldl_range_succ]
    rw [if_neg (h n (Nat.lt_succ_self n)), ih (fun i hi => h i (Nat.lt_succ_of_lt hi))]

/-- A fold that overwrites its accumulator at every matching index
returns the last matching index. -/
theorem foldl_lastmatch_last {q : Nat → Prop} [DecidablePred q] :
    ∀ (n i : Nat), i < n → q i → (∀ j, i < j → j < n → ¬ q j) → ∀ (init : Option Nat),
      (List.range n).foldl (fun acc i => if q i then some i else acc) init = some i := by
  intro n
  induction n with
  | zero => intro i hi; exact absurd hi (Nat.not_lt_zero i)
  | succ n ih =>
    intro i hi hp hlast init
    rw [foldl_range_succ]
    rcases Nat.lt_succ_iff_lt_or_eq.mp hi with h | h
    · rw [if_neg (hlast n h (Nat.lt_succ_self n)), ih i h hp
        (fun j hj1 hj2 => hlast j hj1 (Nat.lt_succ_of_lt hj2)) init]
    · subst h
      rw [if_pos hp]

/-- A fold that overwrites its accumulator at every matching index
returns some matching index when one exists. -/
theorem foldl_lastmatch_exists {q : Nat → Prop} [DecidablePred q] :
    ∀ (n : Nat), (∃ i, i < n ∧ q i) →
      ∃ v, (List.range n).foldl (fun acc i => if q i then some i else acc) none = some v ∧
        v < n ∧ q v := by
  intro n
  induction n with
  | zero => intro ⟨i, hi, _⟩; omega
  | succ n ih =>
    intro ⟨i, hi, hp⟩
    rw [foldl_range_succ]
    by_cases hn : q n
    · exact ⟨n, by rw [if_pos hn], Nat.lt_succ_self n, hn⟩
    · have hi' : i < n := by
        rcases Nat.lt_succ_iff_lt_or_eq.mp hi with h | h
        · exact h
        · subst h; exact absurd hp hn
      obtain ⟨v, hv, hvn, hvp⟩ := ih ⟨i, hi', hp⟩
      exact ⟨v, by rw [if_neg hn, hv], Nat.lt_succ_of_lt hvn, hvp⟩

end OpenCacheSim

namespace OpenCacheSim

/-! ### Properties of `find_way`, `way_to_evict`, `is_data_hazard` -/

theorem find_way_congr (c : Cfg) (s s' : sim_cache) (a : Nat)
    (h1 : s'.valid_array = s.valid_array) (h2 : s'.tag_array = s.tag_array) :
    find_way c s' a = find_way c s a := by
  unfold find_way
  rw [h1, h2]

theorem is_dirty_congr (c : Cfg) (s s' : sim_cache) (a : Nat)
    (h1 : s'.valid_array = s.valid_array) (h2 : s'.tag_array = s.tag_array)
    (h3 : s'.dirty_array = s.dirty_array) :
    is_dirty c s' a = is_dirty c s a := by
  unfold is_dirty
  rw [h3, find_way_congr c s s' a h1 h2]

theorem is_data_hazard_congr (c : Cfg) (s s' : sim_cache) (a : Nat)
    (h1 : s'.prev_set = s.prev_set) (h2 : s'.prev_hit = s.prev_hit)
    (h3 : s'.prev_web = s.prev_web) :
    is_data_hazard c s' a = is_data_hazard c s a := by
  unfold is_data_hazard
  rw [h1, h2, h3]

theorem find_way_some (c : Cfg) (s : sim_cache) (a w : Nat)
    (h : find_way c s a = some w) :
    w < c.num_ways ∧ s.valid_array (parse_address c a).2.1 w = true ∧
      s.tag_array (parse_address c a).2.1 w = (parse_address c a).1 := by
  unfold find_way at h
  have hmem := List.mem_of_find?_eq_some h
  have hp := List.find?_some h
  simp only [List.mem_range] at hmem
  simp only [Bool.and_eq_true, beq_iff_eq] at hp
  exact ⟨hmem, hp.1, hp.2⟩

theorem find_way_none (c : Cfg) (s : sim_cache) (a : Nat)
    (h : find_way c s a = none) :
    ∀ w, w < c.num_ways →
      ¬(s.valid_array (parse_address c a).2.1 w = true ∧
        s.tag_array (parse_address c a).2.1 w = (parse_address c a).1) := by
  unfold find_way at h
  intro w hw hcontra
  have := List.find?_eq_none.mp h w (List.mem_range.mpr hw)
  simp only [Bool.and_eq_true, beq_iff_eq, not_and] at this
  exact this hcontra.1 hcontra.2

theorem find_way_eq_some_of_first (c : Cfg) (s : sim_cache) (a w : Nat)
    (hw : w < c.num_ways)
    (hp : s.valid_array (parse_address c a).2.1 w = true ∧
      s.tag_array (parse_address c a).2.1 w = (parse_address c a).1)
    (hmin : ∀ j, j < w →
      ¬(s.valid_array (parse_address c a).2.1 j = true ∧
        s.tag_array (parse_address c a).2.1 j = (parse_address c a).1)) :
    find_way c s a = some w := by
  unfold find_way
  apply find?_range_eq_some hw
  · simp only [Bool.and_eq_true, beq_iff_eq]
    exact hp
  · intro j hj
    have hmin' := hmin j hj
    rcases Bool.eq_false_or_eq_true (s.valid_array (parse_address c a).2.1 j) with hv | hv
    · have hne : s.tag_array (parse_address c a).2.1 j ≠ (parse_address c a).1 :=
        fun ht => hmin' ⟨hv, ht⟩
      simp [hv, hne]
    · simp [hv]

/-- Under the state invariant, `way_to_evict` always returns a way below
`num_ways`. -/
theorem way_to_evict_lt (c : Cfg) (s : sim_cache) (sd : Nat)
    (hW : 0 < c.num_ways) (hsd : sd < c.num_rows)
    (hfifo : c.replacement_policy = RP.FIFO → ∀ x, x < c.num_rows → s.fifo_array x < c.num_ways)
    (hrand : c.replacement_policy = RP.RANDOM → s.random < c.num_ways)
    (hlru : c.replacement_policy = RP.LRU → ∃ z, z < c.num_ways ∧ s.lru_array sd z = 0) :
    ∃ v, way_to_evict c s sd = some v ∧ v < c.num_ways := by
  unfold way_to_evict
  cases hpol : c.replacement_policy with
  | NONE => exact ⟨0, rfl, hW⟩
  | FIFO => exact ⟨s.fifo_array sd, rfl, hfifo hpol sd hsd⟩
  | LRU =>
    obtain ⟨z, hz, hz0⟩ := hlru hpol
    have hex : ∃ i, i < c.num_ways ∧ s.lru_array sd i = 0 := ⟨z, hz, hz0⟩
    obtain ⟨v, hv, hvn, _⟩ := foldl_lastmatch_exists c.num_ways hex
    exact ⟨v, by rw [hv], hvn⟩
  | RANDOM =>
    by_cases hinv : ∃ i, i < c.num_ways ∧ s.valid_array sd i = false
    · obtain ⟨v, hv, hvn, _⟩ := foldl_lastmatch_exists c.num_ways hinv
      refine ⟨v, ?_, hvn⟩
      rw [hv]
    · have hall : ∀ i, i < c.num_ways → ¬ s.valid_array sd i = false := by
        intro i hi hc
        exact hinv ⟨i, hi, hc⟩
      rw [foldl_lastmatch_none c.num_ways hall]
      exact ⟨s.random, rfl, hrand hpol⟩

end OpenCacheSim


namespace OpenCacheSim

/-! ### Rank-array combinatorics for the LRU policy -/

theorem lruUpd_self (W : Nat) (r : Nat → Nat) (a : Nat) : lruUpd W r a a = W - 1 := by
  unfold lruUpd
  rw [if_pos rfl]

theorem lruUpd_of_ne (W : Nat) (r : Nat → Nat) (a w : Nat) (hne : w ≠ a) :
    lruUpd W r a w = if w < W ∧ r a < r w then r w - 1 else r w := by
  unfold lruUpd
  rw [if_neg hne]

/-- A bounded injective map on `0 .. W-1` is surjective (pigeonhole). -/
theorem surj_of_bounded_inj (W : Nat) (r : Nat → Nat) (hb : ∀ w, w < W → r w < W)
    (hi : ∀ w1, w1 < W → ∀ w2, w2 < W → r w1 = r w2 → w1 = w2) :
    ∀ v, v < W → ∃ w, w < W ∧ r w = v := by
  intro v hv
  have h := Finset.surj_on_of_inj_on_of_card_le (s := Finset.range W) (t := Finset.range W)
    (fun x _ => r x) (fun x hx => Finset.mem_range.mpr (hb x (Finset.mem_range.mp hx)))
    (fun x1 x2 h1 h2 he => hi x1 (Finset.mem_range.mp h1) x2 (Finset.mem_range.mp h2) he)
    (le_refl _) v (Finset.mem_range.mpr hv)
  obtain ⟨w, hw, he⟩ := h
  exact ⟨w, Finset.mem_range.mp hw, he.symm⟩

/-- If way `a` is the only way of rank 0 and all other ranks are
pairwise distinct and below `W`, some way has rank 1. -/
theorem exists_rank_one (W : Nat) (r : Nat → Nat) (a : Nat) (hW : 2 ≤ W) (ha : a < W)
    (hb : ∀ w, w < W → r w < W) (hu : ∀ w, w < W → w ≠ a → r w ≠ 0)
    (hd : ∀ w1, w1 < W → ∀ w2, w2 < W → w1 ≠ w2 → r w1 = r w2 → r w1 = 0) :
    ∃ w, w < W ∧ r w = 1 := by
  have hmaps : ∀ x ∈ (Finset.range W).erase a, r x ∈ Finset.Ioo 0 W := by
    intro x hx
    have hxa := Finset.ne_of_mem_erase hx
    have hxW := Finset.mem_range.mp (Finset.mem_of_mem_erase hx)
    have h0 := hu x hxW hxa
    have h1 := hb x hxW
    exact Finset.mem_Ioo.mpr ⟨by omega, h1⟩
  have hinj : ∀ x1 x2, x1 ∈ (Finset.range W).erase a → x2 ∈ (Finset.range W).erase a →
      r x1 = r x2 → x1 = x2 := by
    intro x1 x2 h1 h2 he
    by_contra hne
    have hx1 := Finset.mem_range.mp (Finset.mem_of_mem_erase h1)
    have hx2 := Finset.mem_range.mp (Finset.mem_of_mem_erase h2)
    exact hu x1 hx1 (Finset.ne_of_mem_erase h1) (hd x1 hx1 x2 hx2 hne he)
  have hcards : (Finset.Ioo 0 W).card ≤ ((Finset.range W).erase a).card := by
    rw [Finset.card_erase_of_mem (Finset.mem_range.mpr ha), Finset.card_range, Nat.card_Ioo]
    omega
  have h := Finset.surj_on_of_inj_on_of_card_le (fun x _ => r x) hmaps hinj hcards 1
    (Finset.mem_Ioo.mpr ⟨by omega, by omega⟩)
  obtain ⟨w, hw, he⟩ := h
  exact ⟨w, Finset.mem_range.mp (Finset.mem_of_mem_erase hw), he.symm⟩

theorem lruUpd_LruInv (W : Nat) (r : Nat → Nat) (a : Nat) (ha : a < W)
    (h : LruInv W r) : LruInv W (lruUpd W r a) := by
  obtain ⟨hb, hd, hz⟩ := h
  refine ⟨?_, ?_, ?_⟩
  · -- ranks stay below W
    intro w hw
    by_cases e : w = a
    · rw [e, lruUpd_self]; omega
    · rw [lruUpd_of_ne W r a w e]
      have := hb w hw
      split <;> omega
  · -- a shared rank can only be 0
    intro w1 h1 w2 h2 hne he
    by_cases e1 : w1 = a
    · exfalso
      have e2 : w2 ≠ a := fun hc => hne (e1.trans hc.symm)
      rw [e1, lruUpd_self] at he
      rw [lruUpd_of_ne W r a w2 e2] at he
      have hW2 : 2 ≤ W := by omega
      by_cases d2 : w2 < W ∧ r a < r w2
      · rw [if_pos d2] at he
        have := hb w2 h2
        omega
      · rw [if_neg d2] at he
        have hle : r w2 ≤ r a := by
          rcases Nat.lt_or_ge (r a) (r w2) with hlt | hge
          · exact absurd ⟨h2, hlt⟩ d2
          · exact hge
        have hba := hb a ha
        have heq : r a = r w2 := by omega
        have := hd a ha w2 h2 (fun hc => e2 hc.symm) heq
        omega
    · by_cases e2 : w2 = a
      · exfalso
        rw [e2, lruUpd_self] at he
        rw [lruUpd_of_ne W r a w1 e1] at he
        have hW2 : 2 ≤ W := by omega
        by_cases d1 : w1 < W ∧ r a < r w1
        · rw [if_pos d1] at he
          have := hb w1 h1
          omega
        · rw [if_neg d1] at he
          have hle : r w1 ≤ r a := by
            rcases Nat.lt_or_ge (r a) (r w1) with hlt | hge
            · exact absurd ⟨h1, hlt⟩ d1
            · exact hge
          have hba := hb a ha
          have heq : r w1 = r a := by omega
          have := hd w1 h1 a ha e1 heq
          omega
      · -- neither way is the promoted one
        rw [lruUpd_of_ne W r a w1 e1] at he ⊢
        rw [lruUpd_of_ne W r a w2 e2] at he
        by_cases d1 : w1 < W ∧ r a < r w1
        · rw [if_pos d1] at he ⊢
          by_cases d2 : w2 < W ∧ r a < r w2
          · rw [if_pos d2] at he
            have heq : r w1 = r w2 := by omega
            have := hd w1 h1 w2 h2 hne heq
            omega
          · rw [if_neg d2] at he
            have hle : r w2 ≤ r a := by
              rcases Nat.lt_or_ge (r a) (r w2) with hlt | hge
              · exact absurd ⟨h2, hlt⟩ d2
              · exact hge
            have heq : r w2 = r a := by omega
            have := hd w2 h2 a ha e2 heq
            omega
        · rw [if_neg d1] at he ⊢
          have hle1 : r w1 ≤ r a := by
            rcases Nat.lt_or_ge (r a) (r w1) with hlt | hge
            · exact absurd ⟨h1, hlt⟩ d1
            · exact hge
          by_cases d2 : w2 < W ∧ r a < r w2
          · rw [if_pos d2] at he
            have heq : r w1 = r a := by omega
            exact hd w1 h1 a ha e1 heq
          · rw [if_neg d2] at he
            exact hd w1 h1 w2 h2 hne he
  · -- some way still has rank 0
    obtain ⟨z, hzW, hz0⟩ := hz
    by_cases hza : z = a
    · by_cases hex : ∃ y, y < W ∧ y ≠ a ∧ r y = 0
      · obtain ⟨y, hy1, hy2, hy3⟩ := hex
        refine ⟨y, hy1, ?_⟩
        rw [lruUpd_of_ne W r a y hy2, if_neg (by omega)]
        exact hy3
      · push_neg at hex
        by_cases hW1 : W = 1
        · refine ⟨a, ha, ?_⟩
          rw [lruUpd_self]
          omega
        · have hW2 : 2 ≤ W := by omega
          have hra : r a = 0 := by
            rw [← hza]
            exact hz0
          obtain ⟨y, hy1, hy2⟩ := exists_rank_one W r a hW2 ha hb
            (fun w hw hwz => hex w hw hwz) hd
          have hya : y ≠ a := by
            intro hc
            rw [hc, hra] at hy2
            omega
          refine ⟨y, hy1, ?_⟩
          rw [lruUpd_of_ne W r a y hya, if_pos ⟨hy1, by omega⟩]
          omega
    · refine ⟨z, hzW, ?_⟩
      rw [lruUpd_of_ne W r a z hza, if_neg (by omega)]
      exact hz0

theorem lruUpd_IsPerm (W : Nat) (r : Nat → Nat) (a : Nat) (ha : a < W)
    (h : IsPerm W r) : IsPerm W (lruUpd W r a) := by
  obtain ⟨hb, hinj, hsurj⟩ := h
  have hb' : ∀ w, w < W → lruUpd W r a w < W := by
    intro w hw
    by_cases e : w = a
    · rw [e, lruUpd_self]; omega
    · rw [lruUpd_of_ne W r a w e]
      have := hb w hw
      split <;> omega
  have hinj' : ∀ w1, w1 < W → ∀ w2, w2 < W → lruUpd W r a w1 = lruUpd W r a w2 → w1 = w2 := by
    intro w1 h1 w2 h2 he
    by_cases e1 : w1 = a
    · by_cases e2 : w2 = a
      · rw [e1, e2]
      · exfalso
        rw [e1, lruUpd_self] at he
        rw [lruUpd_of_ne W r a w2 e2] at he
        have hW2 : 2 ≤ W := by
          have : w2 ≠ a := e2
          omega
        by_cases d2 : w2 < W ∧ r a < r w2
        · rw [if_pos d2] at he
          have := hb w2 h2
          omega
        · rw [if_neg d2] at he
          have hle : r w2 ≤ r a := by
            rcases Nat.lt_or_ge (r a) (r w2) with hlt | hge
            · exact absurd ⟨h2, hlt⟩ d2
            · exact hge
          have hba := hb a ha
          have heq : r w2 = r a := by omega
          exact e2 (hinj w2 h2 a ha heq)
    · by_cases e2 : w2 = a
      · exfalso
        rw [e2, lruUpd_self] at he
        rw [lruUpd_of_ne W r a w1 e1] at he
        have hW2 : 2 ≤ W := by
          have : w1 ≠ a := e1
          omega
        by_cases d1 : w1 < W ∧ r a < r w1
        · rw [if_pos d1] at he
          have := hb w1 h1
          omega
        · rw [if_neg d1] at he
          have hle : r w1 ≤ r a := by
            rcases Nat.lt_or_ge (r a) (r w1) with hlt | hge
            · exact absurd ⟨h1, hlt⟩ d1
            · exact hge
          have hba := hb a ha
          have heq : r w1 = r a := by omega
          exact e1 (hinj w1 h1 a ha heq)
      · rw [lruUpd_of_ne W r a w1 e1] at he
        rw [lruUpd_of_ne W r a w2 e2] at he
        by_cases d1 : w1 < W ∧ r a < r w1
        · rw [if_pos d1] at he
          by_cases d2 : w2 < W ∧ r a < r w2
          · rw [if_pos d2] at he
            have heq : r w1 = r w2 := by omega
            exact hinj w1 h1 w2 h2 heq
          · rw [if_neg d2] at he
            have hle : r w2 ≤ r a := by
              rcases Nat.lt_or_ge (r a) (r w2) with hlt | hge
              · exact absurd ⟨h2, hlt⟩ d2
              · exact hge
            have heq : r w2 = r a := by omega
            exact absurd (hinj w2 h2 a ha heq) e2
        · rw [if_neg d1] at he
          have hle1 : r w1 ≤ r a := by
            rcases Nat.lt_or_ge (r a) (r w1) with hlt | hge
            · exact absurd ⟨h1, hlt⟩ d1
            · exact hge
          by_cases d2 : w2 < W ∧ r a < r w2
          · rw [if_pos d2] at he
            have heq : r w1 = r a := by omega
            exact absurd (hinj w1 h1 a ha heq) e1
          · rw [if_neg d2] at he
            exact hinj w1 h1 w2 h2 he
  exact ⟨hb', hinj', surj_of_bounded_inj W _ hb' hinj'⟩

/-- An `IsPerm` rank array satisfies the weaker structural invariant. -/
theorem IsPerm_LruInv (W : Nat) (r : Nat → Nat) (hW : 0 < W) (h : IsPerm W r) :
    LruInv W r := by
  obtain ⟨hb, hinj, hsurj⟩ := h
  refine ⟨hb, ?_, ?_⟩
  · intro w1 h1 w2 h2 hne he
    exact absurd (hinj w1 h1 w2 h2 he) hne
  · obtain ⟨w, hw, he⟩ := hsurj 0 hW
    exact ⟨w, hw, he⟩

end OpenCacheSim

namespace OpenCacheSim

/-! ### Characterization of `request` -/

theorem request_eq_hit (c : Cfg) (s : sim_cache) (a w : Nat)
    (h : find_way c s a = some w) :
    request c s a = some (request_hit_state c s a w, w) := by
  unfold request request_hit_state
  rw [h]

theorem request_eq_miss (c : Cfg) (s : sim_cache) (a we : Nat)
    (hf : find_way c s a = none)
    (hv : way_to_evict c (update_random c (if is_data_hazard c s a then 1 else 0) s)
      (parse_address c a).2.1 = some we) :
    request c s a = some (request_miss_state c s a we, we) := by
  unfold request request_miss_state
  rw [hf]
  simp only [hv]

theorem request_eq_none (c : Cfg) (s : sim_cache) (a : Nat)
    (hf : find_way c s a = none)
    (hv : way_to_evict c (update_random c (if is_data_hazard c s a then 1 else 0) s)
      (parse_address c a).2.1 = none) :
    request c s a = none := by
  unfold request
  rw [hf]
  simp only [hv]

@[simp] theorem request_hit_state_valid_array (c : Cfg) (s : sim_cache) (a w : Nat) :
    (request_hit_state c s a w).valid_array = s.valid_array := by
  simp [request_hit_state]

@[simp] theorem request_hit_state_dirty_array (c : Cfg) (s : sim_cache) (a w : Nat) :
    (request_hit_state c s a w).dirty_array = s.dirty_array := by
  simp [request_hit_state]

@[simp] theorem request_hit_state_tag_array (c : Cfg) (s : sim_cache) (a w : Nat) :
    (request_hit_state c s a w).tag_array = s.tag_array := by
  simp [request_hit_state]

@[simp] theorem request_hit_state_data_array (c : Cfg) (s : sim_cache) (a w : Nat) :
    (request_hit_state c s a w).data_array = s.data_array := by
  simp [request_hit_state]

@[simp] theorem request_hit_state_prev_hit (c : Cfg) (s : sim_cache) (a w : Nat) :
    (request_hit_state c s a w).prev_hit = true := rfl

@[simp] theorem request_hit_state_prev_web (c : Cfg) (s : sim_cache) (a w : Nat) :
    (request_hit_state c s a w).prev_web = 1 := rfl

@[simp] theorem request_hit_state_prev_set (c : Cfg) (s : sim_cache) (a w : Nat) :
    (request_hit_state c s a w).prev_set = some (parse_address c a).2.1 := rfl

@[simp] theorem request_hit_state_fifo_array (c : Cfg) (s : sim_cache) (a w : Nat) :
    (request_hit_state c s a w).fifo_array = s.fifo_array := by
  simp [request_hit_state]

@[simp] theorem request_hit_state_dram (c : Cfg) (s : sim_cache) (a w : Nat) :
    (request_hit_state c s a w).dram = s.dram := by
  simp [request_hit_state]

@[simp] theorem request_hit_state_dram_stalls (c : Cfg) (s : sim_cache) (a w : Nat) :
    (request_hit_state c s a w).dram_stalls = s.dram_stalls := by
  simp [request_hit_state]

theorem request_hit_state_lru_array_of_lru (c : Cfg) (s : sim_cache) (a w : Nat)
    (hpol : c.replacement_policy = RP.LRU) :
    (request_hit_state c s a w).lru_array = fun x v =>
      if x = (parse_address c a).2.1 then
        lruUpd c.num_ways (s.lru_array (parse_address c a).2.1) w v
      else s.lru_array x v := by
  show (update_random c 1 (update_lru c (parse_address c a).2.1 w
      (update_random c (if is_data_hazard c s a then 1 else 0) s))).lru_array = _
  rw [update_random_lru_array, update_lru_lru_array _ _ _ _ hpol]
  simp

theorem request_hit_state_lru_array_of_ne (c : Cfg) (s : sim_cache) (a w : Nat)
    (hpol : ¬ c.replacement_policy = RP.LRU) :
    (request_hit_state c s a w).lru_array = s.lru_array := by
  show (update_random c 1 (update_lru c (parse_address c a).2.1 w
      (update_random c (if is_data_hazard c s a then 1 else 0) s))).lru_array = _
  rw [update_random_lru_array, update_lru_of_ne _ _ _ _ hpol, update_random_lru_array]

theorem request_hit_state_random_lt (c : Cfg) (s : sim_cache) (a w : Nat)
    (hW : 0 < c.num_ways) (hpol : c.replacement_policy = RP.RANDOM) :
    (request_hit_state c s a w).random < c.num_ways := by
  show (update_random c 1 (update_lru c (parse_address c a).2.1 w
      (update_random c (if is_data_hazard c s a then 1 else 0) s))).random < c.num_ways
  exact update_random_random_lt _ _ _ hW hpol

theorem request_hit_state_random_of_ne (c : Cfg) (s : sim_cache) (a w : Nat)
    (hpol : ¬ c.replacement_policy = RP.RANDOM) :
    (request_hit_state c s a w).random = s.random := by
  show (update_random c 1 (update_lru c (parse_address c a).2.1 w
      (update_random c (if is_data_hazard c s a then 1 else 0) s))).random = _
  rw [update_random_of_ne _ _ _ hpol]
  rw [update_lru_random, update_random_of_ne _ _ _ hpol]

end OpenCacheSim

namespace OpenCacheSim

theorem request_miss_state_valid_array (c : Cfg) (s : sim_cache) (a we : Nat) :
    (request_miss_state c s a we).valid_array = fun x v =>
      if x = (parse_address c a).2.1 ∧ v = we then true else s.valid_array x v := by
  unfold request_miss_state
  by_cases hd : s.dirty_array (parse_address c a).2.1 we
  · simp [hd]
  · simp [hd]

theorem request_miss_state_dirty_array (c : Cfg) (s : sim_cache) (a we : Nat) :
    (request_miss_state c s a we).dirty_array = fun x v =>
      if x = (parse_address c a).2.1 ∧ v = we then false else s.dirty_array x v := by
  unfold request_miss_state
  by_cases hd : s.dirty_array (parse_address c a).2.1 we
  · simp [hd]
  · simp [hd]

theorem request_miss_state_tag_array (c : Cfg) (s : sim_cache) (a we : Nat) :
    (request_miss_state c s a we).tag_array = fun x v =>
      if x = (parse_address c a).2.1 ∧ v = we then (parse_address c a).1
      else s.tag_array x v := by
  unfold request_miss_state
  by_cases hd : s.dirty_array (parse_address c a).2.1 we
  · simp [hd]
  · simp [hd]

theorem request_miss_state_data_array (c : Cfg) (s : sim_cache) (a we : Nat) :
    (request_miss_state c s a we).data_array = fun x v i =>
      if x = (parse_address c a).2.1 ∧ v = we then
        (request_miss_state c s a we).data_array (parse_address c a).2.1 we i
      else s.data_array x v i := by
  funext x v i
  by_cases h : x = (parse_address c a).2.1 ∧ v = we
  · rw [if_pos h, h.1, h.2]
  · rw [if_neg h]
    unfold request_miss_state
    by_cases hd : s.dirty_array (parse_address c a).2.1 we
    · simp [hd, h]
    · simp [hd, h]

@[simp] theorem request_miss_state_prev_hit (c : Cfg) (s : sim_cache) (a we : Nat) :
    (request_miss_state c s a we).prev_hit = false := rfl

@[simp] theorem request_miss_state_prev_web (c : Cfg) (s : sim_cache) (a we : Nat) :
    (request_miss_state c s a we).prev_web = 1 := rfl

@[simp] theorem request_miss_state_prev_set (c : Cfg) (s : sim_cache) (a we : Nat) :
    (request_miss_state c s a we).prev_set = some (parse_address c a).2.1 := rfl

@[simp] theorem request_miss_state_dram_stalls (c : Cfg) (s : sim_cache) (a we : Nat) :
    (request_miss_state c s a we).dram_stalls = s.dram_stalls := by
  unfold request_miss_state
  by_cases hd : s.dirty_array (parse_address c a).2.1 we
  · simp [hd]
  · simp [hd]

theorem request_miss_state_fifo_array_of_fifo (c : Cfg) (s : sim_cache) (a we : Nat)
    (hpol : c.replacement_policy = RP.FIFO) :
    (request_miss_state c s a we).fifo_array = fun x =>
      if x = (parse_address c a).2.1 then
        (s.fifo_array (parse_address c a).2.1 + 1) % c.num_ways
      else s.fifo_array x := by
  unfold request_miss_state
  by_cases hd : s.dirty_array (parse_address c a).2.1 we
  · simp only [update_random_fifo_array, update_lru_fifo_array]
    rw [update_fifo_fifo_array _ _ _ hpol]
    simp [hd]
  · simp only [update_random_fifo_array, update_lru_fifo_array]
    rw [update_fifo_fifo_array _ _ _ hpol]
    simp [hd]

theorem request_miss_state_fifo_array_of_ne (c : Cfg) (s : sim_cache) (a we : Nat)
    (hpol : ¬ c.replacement_policy = RP.FIFO) :
    (request_miss_state c s a we).fifo_array = s.fifo_array := by
  unfold request_miss_state
  by_cases hd : s.dirty_array (parse_address c a).2.1 we
  · simp only [update_random_fifo_array, update_lru_fifo_array]
    rw [update_fifo_of_ne _ _ _ hpol]
    simp [hd]
  · simp only [update_random_fifo_array, update_lru_fifo_array]
    rw [update_fifo_of_ne _ _ _ hpol]
    simp [hd]

theorem request_miss_state_lru_array_of_lru (c : Cfg) (s : sim_cache) (a we : Nat)
    (hpol : c.replacement_policy = RP.LRU) :
    (request_miss_state c s a we).lru_array = fun x v =>
      if x = (parse_address c a).2.1 then
        lruUpd c.num_ways (s.lru_array (parse_address c a).2.1) we v
      else s.lru_array x v := by
  unfold request_miss_state
  by_cases hd : s.dirty_array (parse_address c a).2.1 we
  · simp only [update_random_lru_array]
    rw [update_lru_lru_array _ _ _ _ hpol]
    simp [hd]
  · simp only [update_random_lru_array]
    rw [update_lru_lru_array _ _ _ _ hpol]
    simp [hd]

theorem request_miss_state_lru_array_of_ne (c : Cfg) (s : sim_cache) (a we : Nat)
    (hpol : ¬ c.replacement_policy = RP.LRU) :
    (request_miss_state c s a we).lru_array = s.lru_array := by
  unfold request_miss_state
  by_cases hd : s.dirty_array (parse_address c a).2.1 we
  · simp only [update_random_lru_array]
    rw [update_lru_of_ne _ _ _ _ hpol]
    simp [hd]
  · simp only [update_random_lru_array]
    rw [update_lru_of_ne _ _ _ _ hpol]
    simp [hd]

theorem request_miss_state_random_lt (c : Cfg) (s : sim_cache) (a we : Nat)
    (hW : 0 < c.num_ways) (hpol : c.replacement_policy = RP.RANDOM) :
    (request_miss_state c s a we).random < c.num_ways := by
  unfold request_miss_state
  exact update_random_random_lt _ _ _ hW hpol

theorem request_miss_state_random_of_ne (c : Cfg) (s : sim_cache) (a we : Nat)
    (hpol : ¬ c.replacement_policy = RP.RANDOM) :
    (request_miss_state c s a we).random = s.random := by
  unfold request_miss_state
  rw [update_random_of_ne _ _ _ hpol]
  by_cases hd : s.dirty_array (parse_address c a).2.1 we
  · simp only [update_lru_random, update_fifo_random]
    simp [hd, update_random_of_ne _ _ _ hpol]
  · simp only [update_lru_random, update_fifo_random]
    simp [hd, update_random_of_ne _ _ _ hpol]

end OpenCacheSim

namespace OpenCacheSim

/-! ### `read`, `write` and the masked write data -/

theorem read_eq (c : Cfg) (s : sim_cache) (a : Nat) (s1 : sim_cache) (w : Nat)
    (h : request c s a = some (s1, w)) :
    read c s a = some (s1, s1.data_array (parse_address c a).2.1 w (parse_address c a).2.2) := by
  unfold read
  rw [h]
  rfl

theorem write_eq (c : Cfg) (s : sim_cache) (a : Nat) (m : Nat → Bool) (d : Nat)
    (s1 : sim_cache) (w : Nat) (h : request c s a = some (s1, w)) :
    write c s a m d =
      some (writeState c s1 (parse_address c a).2.1 (parse_address c a).2.2 m d w) := by
  unfold write
  rw [h]
  rfl

@[simp] theorem writeState_valid_array (c : Cfg) (s1 : sim_cache) (sd off : Nat)
    (m : Nat → Bool) (d w : Nat) :
    (writeState c s1 sd off m d w).valid_array = s1.valid_array := rfl

@[simp] theorem writeState_tag_array (c : Cfg) (s1 : sim_cache) (sd off : Nat)
    (m : Nat → Bool) (d w : Nat) :
    (writeState c s1 sd off m d w).tag_array = s1.tag_array := rfl

@[simp] theorem writeState_prev_hit (c : Cfg) (s1 : sim_cache) (sd off : Nat)
    (m : Nat → Bool) (d w : Nat) :
    (writeState c s1 sd off m d w).prev_hit = s1.prev_hit := rfl

@[simp] theorem writeState_prev_web (c : Cfg) (s1 : sim_cache) (sd off : Nat)
    (m : Nat → Bool) (d w : Nat) :
    (writeState c s1 sd off m d w).prev_web = 0 := rfl

@[simp] theorem writeState_prev_set (c : Cfg) (s1 : sim_cache) (sd off : Nat)
    (m : Nat → Bool) (d w : Nat) :
    (writeState c s1 sd off m d w).prev_set = s1.prev_set := rfl

@[simp] theorem writeState_fifo_array (c : Cfg) (s1 : sim_cache) (sd off : Nat)
    (m : Nat → Bool) (d w : Nat) :
    (writeState c s1 sd off m d w).fifo_array = s1.fifo_array := rfl

@[simp] theorem writeState_lru_array (c : Cfg) (s1 : sim_cache) (sd off : Nat)
    (m : Nat → Bool) (d w : Nat) :
    (writeState c s1 sd off m d w).lru_array = s1.lru_array := rfl

@[simp] theorem writeState_random (c : Cfg) (s1 : sim_cache) (sd off : Nat)
    (m : Nat → Bool) (d w : Nat) :
    (writeState c s1 sd off m d w).random = s1.random := rfl

@[simp] theorem writeState_dram (c : Cfg) (s1 : sim_cache) (sd off : Nat)
    (m : Nat → Bool) (d w : Nat) :
    (writeState c s1 sd off m d w).dram = s1.dram := rfl

@[simp] theorem writeState_dram_stalls (c : Cfg) (s1 : sim_cache) (sd off : Nat)
    (m : Nat → Bool) (d w : Nat) :
    (writeState c s1 sd off m d w).dram_stalls = s1.dram_stalls := rfl

theorem writeState_dirty_array (c : Cfg) (s1 : sim_cache) (sd off : Nat)
    (m : Nat → Bool) (d w : Nat) :
    (writeState c s1 sd off m d w).dirty_array = fun x v =>
      if x = sd ∧ v = w then true else s1.dirty_array x v := rfl

theorem writeState_data_array (c : Cfg) (s1 : sim_cache) (sd off : Nat)
    (m : Nat → Bool) (d w : Nat) :
    (writeState c s1 sd off m d w).data_array = fun x v i =>
      if x = sd ∧ v = w ∧ i = off then wr_mask_data c m d (s1.data_array sd w off)
      else s1.data_array x v i := rfl

theorem maskFold_eq_mod (ws : Nat) (g : Nat → Nat) (d : Nat) (hg : ∀ i, g i = d) :
    ∀ n : Nat,
      (List.range n).foldl
        (fun acc i => acc + g i / 2 ^ (i * ws) % 2 ^ ws * 2 ^ (i * ws)) 0 =
      d % 2 ^ (n * ws) := by
  intro n
  induction n with
  | zero => simp [Nat.mod_one]
  | succ n ih =>
    rw [foldl_range_succ, ih, hg n]
    have h2 : (2:Nat) ^ ((n + 1) * ws) = 2 ^ (n * ws) * 2 ^ ws := by
      rw [← pow_add]
      congr 1
      ring
    rw [h2, Nat.mod_mul]
    ring

/-- Under a full write mask, the masked write data is exactly the input
word (given a mask geometry covering the word). -/
theorem wr_mask_data_full (c : Cfg) (d orig : Nat)
    (hm : c.num_masks = 0 ∨ c.num_masks * c.write_size = c.word_size)
    (hd : d < 2 ^ c.word_size) :
    wr_mask_data c (fun _ => true) d orig = d := by
  unfold wr_mask_data
  by_cases h0 : c.num_masks = 0
  · simp [h0]
  · rw [if_neg h0]
    have hg : ∀ i : Nat, (if (fun _ : Nat => true) i then d else orig) = d := by
      intro i
      simp
    rw [maskFold_eq_mod c.write_size _ d hg c.num_masks]
    rcases hm with hcon | hww
    · exact absurd hcon h0
    · rw [hww]
      exact Nat.mod_eq_of_lt hd

end OpenCacheSim

namespace OpenCacheSim

/-! ### Field lemmas for `flush_step` and `reset` -/

theorem update_random_dram_stalls_set (c : Cfg) (k : Int) (s : sim_cache) (v : Nat) :
    update_random c k { s with dram_stalls := v } = { update_random c k s with dram_stalls := v } := by
  unfold update_random
  split <;> rfl

@[simp] theorem flush_step_valid_array (c : Cfg) (acc : sim_cache × Nat) (rw : Nat × Nat) :
    (flush_step c acc rw).1.valid_array = acc.1.valid_array := by
  unfold flush_step
  dsimp only
  split <;> rfl

@[simp] theorem flush_step_tag_array (c : Cfg) (acc : sim_cache × Nat) (rw : Nat × Nat) :
    (flush_step c acc rw).1.tag_array = acc.1.tag_array := by
  unfold flush_step
  dsimp only
  split <;> rfl

@[simp] theorem flush_step_data_array (c : Cfg) (acc : sim_cache × Nat) (rw : Nat × Nat) :
    (flush_step c acc rw).1.data_array = acc.1.data_array := by
  unfold flush_step
  dsimp only
  split <;> rfl

@[simp] theorem flush_step_lru_array (c : Cfg) (acc : sim_cache × Nat) (rw : Nat × Nat) :
    (flush_step c acc rw).1.lru_array = acc.1.lru_array := by
  unfold flush_step
  dsimp only
  split <;> rfl

@[simp] theorem flush_step_fifo_array (c : Cfg) (acc : sim_cache × Nat) (rw : Nat × Nat) :
    (flush_step c acc rw).1.fifo_array = acc.1.fifo_array := by
  unfold flush_step
  dsimp only
  split <;> rfl

@[simp] theorem flush_step_random (c : Cfg) (acc : sim_cache × Nat) (rw : Nat × Nat) :
    (flush_step c acc rw).1.random = acc.1.random := by
  unfold flush_step
  dsimp only
  split <;> rfl

@[simp] theorem flush_step_prev_hit (c : Cfg) (acc : sim_cache × Nat) (rw : Nat × Nat) :
    (flush_step c acc rw).1.prev_hit = acc.1.prev_hit := by
  unfold flush_step
  dsimp only
  split <;> rfl

@[simp] theorem flush_step_prev_web (c : Cfg) (acc : sim_cache × Nat) (rw : Nat × Nat) :
    (flush_step c acc rw).1.prev_web = acc.1.prev_web := by
  unfold flush_step
  dsimp only
  split <;> rfl

@[simp] theorem flush_step_prev_set (c : Cfg) (acc : sim_cache × Nat) (rw : Nat × Nat) :
    (flush_step c acc rw).1.prev_set = acc.1.prev_set := by
  unfold flush_step
  dsimp only
  split <;> rfl

/-- The dirty bit is only ever cleared by a flush step. -/
theorem flush_step_dirty_mono (c : Cfg) (acc : sim_cache × Nat) (rw : Nat × Nat)
    (x y : Nat) (h : (flush_step c acc rw).1.dirty_array x y = true) :
    acc.1.dirty_array x y = true := by
  unfold flush_step at h
  dsimp only at h
  split at h
  · by_cases hxy : x = rw.1 ∧ y = rw.2
    · simp [hxy] at h
    · simpa [hxy] using h
  · exact h

theorem flush_fold_fields (c : Cfg) :
    ∀ (L : List (Nat × Nat)) (acc : sim_cache × Nat),
      (L.foldl (flush_step c) acc).1.valid_array = acc.1.valid_array ∧
      (L.foldl (flush_step c) acc).1.tag_array = acc.1.tag_array ∧
      (L.foldl (flush_step c) acc).1.data_array = acc.1.data_array ∧
      (L.foldl (flush_step c) acc).1.lru_array = acc.1.lru_array ∧
      (L.foldl (flush_step c) acc).1.fifo_array = acc.1.fifo_array ∧
      (L.foldl (flush_step c) acc).1.random = acc.1.random ∧
      (L.foldl (flush_step c) acc).1.prev_hit = acc.1.prev_hit ∧
      (L.foldl (flush_step c) acc).1.prev_web = acc.1.prev_web ∧
      (L.foldl (flush_step c) acc).1.prev_set = acc.1.prev_set := by
  intro L
  induction L with
  | nil => intro acc; exact ⟨rfl, rfl, rfl, rfl, rfl, rfl, rfl, rfl, rfl⟩
  | cons hd tl ih =>
    intro acc
    have h := ih (flush_step c acc hd)
    simp only [List.foldl_cons]
    refine ⟨?_, ?_, ?_, ?_, ?_, ?_, ?_, ?_, ?_⟩
    · rw [h.1, flush_step_valid_array]
    · rw [h.2.1, flush_step_tag_array]
    · rw [h.2.2.1, flush_step_data_array]
    · rw [h.2.2.2.1, flush_step_lru_array]
    · rw [h.2.2.2.2.1, flush_step_fifo_array]
    · rw [h.2.2.2.2.2.1, flush_step_random]
    · rw [h.2.2.2.2.2.2.1, flush_step_prev_hit]
    · rw [h.2.2.2.2.2.2.2.1, flush_step_prev_web]
    · rw [h.2.2.2.2.2.2.2.2, flush_step_prev_set]

theorem way_to_evict_congr (c : Cfg) (s s' : sim_cache) (sd : Nat)
    (h1 : s'.fifo_array = s.fifo_array) (h2 : s'.lru_array = s.lru_array)
    (h3 : s'.valid_array = s.valid_array) (h4 : s'.random = s.random) :
    way_to_evict c s' sd = way_to_evict c s sd := by
  unfold way_to_evict
  rw [h1, h2, h3, h4]

@[simp] theorem reset_snd (c : Cfg) (s : sim_cache) :
    (reset c s).2 = c.num_rows + 1 - 1 := rfl

@[simp] theorem reset_valid_array (c : Cfg) (s : sim_cache) :
    (reset c s).1.valid_array = fun _ _ => false := by
  unfold reset
  dsimp only
  split <;> simp

@[simp] theorem reset_dirty_array (c : Cfg) (s : sim_cache) :
    (reset c s).1.dirty_array = fun _ _ => false := by
  unfold reset
  dsimp only
  split <;> simp

@[simp] theorem reset_tag_array (c : Cfg) (s : sim_cache) :
    (reset c s).1.tag_array = fun _ _ => 0 := by
  unfold reset
  dsimp only
  split <;> simp

@[simp] theorem reset_prev_set (c : Cfg) (s : sim_cache) :
    (reset c s).1.prev_set = none := by
  unfold reset
  dsimp only
  split <;> simp

theorem reset_fifo_array_of_fifo (c : Cfg) (s : sim_cache)
    (hpol : c.replacement_policy = RP.FIFO) :
    (reset c s).1.fifo_array = fun _ => 0 := by
  unfold reset
  dsimp only
  rw [if_neg (by rw [hpol]; intro hc; cases hc), if_pos hpol]

theorem reset_lru_array_of_lru (c : Cfg) (s : sim_cache)
    (hpol : c.replacement_policy = RP.LRU) :
    (reset c s).1.lru_array = fun _ _ => 0 := by
  unfold reset
  dsimp only
  rw [if_neg (by rw [hpol]; intro hc; cases hc), if_pos hpol]

theorem reset_random_lt (c : Cfg) (s : sim_cache)
    (hW : 0 < c.num_ways) (hpol : c.replacement_policy = RP.RANDOM) :
    (reset c s).1.random < c.num_ways := by
  unfold reset
  dsimp only
  rw [if_pos hpol]
  exact update_random_random_lt _ _ _ hW hpol

end OpenCacheSim

namespace OpenCacheSim

/-! ### Characterization of `stall_cycles` -/

@[simp] theorem set_dram_stalls_valid_array (s : sim_cache) (v : Nat) :
    (set_dram_stalls s v).valid_array = s.valid_array := rfl

@[simp] theorem set_dram_stalls_dirty_array (s : sim_cache) (v : Nat) :
    (set_dram_stalls s v).dirty_array = s.dirty_array := rfl

@[simp] theorem set_dram_stalls_tag_array (s : sim_cache) (v : Nat) :
    (set_dram_stalls s v).tag_array = s.tag_array := rfl

@[simp] theorem set_dram_stalls_data_array (s : sim_cache) (v : Nat) :
    (set_dram_stalls s v).data_array = s.data_array := rfl

@[simp] theorem set_dram_stalls_prev_hit (s : sim_cache) (v : Nat) :
    (set_dram_stalls s v).prev_hit = s.prev_hit := rfl

@[simp] theorem set_dram_stalls_prev_web (s : sim_cache) (v : Nat) :
    (set_dram_stalls s v).prev_web = s.prev_web := rfl

@[simp] theorem set_dram_stalls_prev_set (s : sim_cache) (v : Nat) :
    (set_dram_stalls s v).prev_set = s.prev_set := rfl

@[simp] theorem set_dram_stalls_fifo_array (s : sim_cache) (v : Nat) :
    (set_dram_stalls s v).fifo_array = s.fifo_array := rfl

@[simp] theorem set_dram_stalls_lru_array (s : sim_cache) (v : Nat) :
    (set_dram_stalls s v).lru_array = s.lru_array := rfl

@[simp] theorem set_dram_stalls_random (s : sim_cache) (v : Nat) :
    (set_dram_stalls s v).random = s.random := rfl

@[simp] theorem set_dram_stalls_dram (s : sim_cache) (v : Nat) :
    (set_dram_stalls s v).dram = s.dram := rfl

@[simp] theorem set_dram_stalls_dram_stalls (s : sim_cache) (v : Nat) :
    (set_dram_stalls s v).dram_stalls = v := rfl

theorem update_random_set_dram_stalls (c : Cfg) (k : Int) (s : sim_cache) (v : Nat) :
    update_random c k (set_dram_stalls s v) = set_dram_stalls (update_random c k s) v := by
  unfold update_random set_dram_stalls
  split <;> rfl

theorem is_data_hazard_update_random (c : Cfg) (k : Int) (s : sim_cache) (a : Nat) :
    is_data_hazard c (update_random c k s) a = is_data_hazard c s a :=
  is_data_hazard_congr c s _ a (by simp) (by simp) (by simp)

theorem find_way_update_random (c : Cfg) (k : Int) (s : sim_cache) (a : Nat) :
    find_way c (update_random c k s) a = find_way c s a :=
  find_way_congr c s _ a (by simp) (by simp)

theorem is_data_hazard_set_dram_stalls (c : Cfg) (s : sim_cache) (v : Nat) (a : Nat) :
    is_data_hazard c (set_dram_stalls s v) a = is_data_hazard c s a :=
  is_data_hazard_congr c s _ a (by simp) (by simp) (by simp)

theorem way_to_evict_set_dram_stalls (c : Cfg) (s : sim_cache) (v sd : Nat) :
    way_to_evict c (set_dram_stalls s v) sd = way_to_evict c s sd :=
  way_to_evict_congr c s _ sd (by simp) (by simp) (by simp) (by simp)

theorem stall_cycles_eq_hit (c : Cfg) (s : sim_cache) (a w : Nat)
    (h : find_way c s a = some w) :
    stall_cycles c s a = some
      ((if is_data_hazard c s a then update_random c (-1) (update_random c 1 s) else s),
        if is_data_hazard c s a then 1 else 0) := by
  unfold stall_cycles
  by_cases hz : is_data_hazard c s a
  · simp only [hz, if_true, find_way_update_random, h, is_data_hazard_update_random]
  · simp only [hz, if_false, Bool.false_eq_true, h]

theorem stall_cycles_eq_miss (c : Cfg) (s : sim_cache) (a we : Nat)
    (hf : find_way c s a = none)
    (hv : way_to_evict c (if is_data_hazard c s a then update_random c 1 s else s)
      (parse_address c a).2.1 = some we) :
    stall_cycles c s a = some
      ((if is_data_hazard c s a then
          update_random c (-1) (set_dram_stalls (update_random c 1 s) 0)
        else set_dram_stalls s 0),
        (if is_data_hazard c s a then 1 else 0) + 1 + s.dram_stalls +
          if s.dirty_array (parse_address c a).2.1 we then c.DRAM_DELAY * 2 + 1
          else c.DRAM_DELAY) := by
  unfold stall_cycles
  by_cases hz : is_data_hazard c s a
  · simp only [hz, if_true] at hv ⊢
    simp only [find_way_update_random, hf, way_to_evict_set_dram_stalls, hv,
      is_data_hazard_set_dram_stalls, is_data_hazard_update_random, hz, if_true,
      set_dram_stalls_dirty_array, update_random_dirty_array, update_random_dram_stalls]
  · simp only [hz, if_false, Bool.false_eq_true] at hv ⊢
    simp only [hf, way_to_evict_set_dram_stalls, hv, is_data_hazard_set_dram_stalls, hz,
      if_false, Bool.false_eq_true, set_dram_stalls_dirty_array]

theorem stall_cycles_eq_none (c : Cfg) (s : sim_cache) (a : Nat)
    (hf : find_way c s a = none)
    (hv : way_to_evict c (if is_data_hazard c s a then update_random c 1 s else s)
      (parse_address c a).2.1 = none) :
    stall_cycles c s a = none := by
  unfold stall_cycles
  by_cases hz : is_data_hazard c s a
  · simp only [hz, if_true] at hv ⊢
    simp only [find_way_update_random, hf, way_to_evict_set_dram_stalls, hv]
  · simp only [hz, if_false, Bool.false_eq_true] at hv ⊢
    simp only [hf, way_to_evict_set_dram_stalls, hv]

/-- On a hit, `stall_cycles` leaves the whole state unchanged (the
random counter is bumped and reverted). -/
theorem stall_cycles_hit_state (c : Cfg) (s : sim_cache) (a w : Nat)
    (hW : 0 < c.num_ways) (hr : c.replacement_policy = RP.RANDOM → s.random < c.num_ways)
    (h : find_way c s a = some w) :
    stall_cycles c s a = some (s, if is_data_hazard c s a then 1 else 0) := by
  rw [stall_cycles_eq_hit c s a w h]
  by_cases hz : is_data_hazard c s a
  · rw [if_pos hz, update_random_bump_revert c s hW hr]
  · rw [if_neg hz]

/-- On a miss, `stall_cycles` only zeroes `dram_stalls`. -/
theorem stall_cycles_miss_state (c : Cfg) (s : sim_cache) (a we : Nat)
    (hW : 0 < c.num_ways) (hr : c.replacement_policy = RP.RANDOM → s.random < c.num_ways)
    (hf : find_way c s a = none)
    (hv : way_to_evict c (if is_data_hazard c s a then update_random c 1 s else s)
      (parse_address c a).2.1 = some we) :
    stall_cycles c s a = some
      (set_dram_stalls s 0,
        (if is_data_hazard c s a then 1 else 0) + 1 + s.dram_stalls +
          if s.dirty_array (parse_address c a).2.1 we then c.DRAM_DELAY * 2 + 1
          else c.DRAM_DELAY) := by
  rw [stall_cycles_eq_miss c s a we hf hv]
  by_cases hz : is_data_hazard c s a
  · rw [if_pos hz, update_random_set_dram_stalls, update_random_bump_revert c s hW hr]
  · rw [if_neg hz]

end OpenCacheSim

namespace OpenCacheSim

/-! ### Fields of `flush` and preservation of the invariant -/

theorem flush_valid_array (c : Cfg) (s : sim_cache) :
    (flush c s).1.valid_array = s.valid_array := by
  unfold flush
  dsimp only
  rw [update_random_valid_array]
  exact (flush_fold_fields c (flush_cells c) _).1

theorem flush_tag_array (c : Cfg) (s : sim_cache) :
    (flush c s).1.tag_array = s.tag_array := by
  unfold flush
  dsimp only
  rw [update_random_tag_array]
  exact (flush_fold_fields c (flush_cells c) _).2.1

theorem flush_data_array (c : Cfg) (s : sim_cache) :
    (flush c s).1.data_array = s.data_array := by
  unfold flush
  dsimp only
  rw [update_random_data_array]
  exact (flush_fold_fields c (flush_cells c) _).2.2.1

theorem flush_lru_array (c : Cfg) (s : sim_cache) :
    (flush c s).1.lru_array = s.lru_array := by
  unfold flush
  dsimp only
  rw [update_random_lru_array]
  exact (flush_fold_fields c (flush_cells c) _).2.2.2.1

theorem flush_fifo_array (c : Cfg) (s : sim_cache) :
    (flush c s).1.fifo_array = s.fifo_array := by
  unfold flush
  dsimp only
  rw [update_random_fifo_array]
  exact (flush_fold_fields c (flush_cells c) _).2.2.2.2.1

theorem flush_random_lt (c : Cfg) (s : sim_cache)
    (hW : 0 < c.num_ways) (hpol : c.replacement_policy = RP.RANDOM) :
    (flush c s).1.random < c.num_ways := by
  unfold flush
  dsimp only
  exact update_random_random_lt _ _ _ hW hpol

theorem inv_reset (c : Cfg) (s : sim_cache) (hW : c.WF) : Inv c (reset c s).1 := by
  obtain ⟨hWa, hWr, hrows, hmask⟩ := hW
  refine ⟨?_, ?_, ?_, ?_⟩
  · intro sd hsd w1 h1 w2 h2 hv1 hv2 ht
    rw [reset_valid_array] at hv1
    exact Bool.noConfusion hv1
  · intro hpol sd hsd
    rw [reset_fifo_array_of_fifo c s hpol]
    exact hWa
  · intro hpol
    exact reset_random_lt c s hWa hpol
  · intro hpol sd hsd
    rw [reset_lru_array_of_lru c s hpol]
    exact ⟨fun w hw => hWa, fun w1 h1 w2 h2 hne he => rfl, ⟨0, hWa, rfl⟩⟩

theorem inv_reset_dram (c : Cfg) (f : Nat → Nat → Nat) (s : sim_cache)
    (h : Inv c s) : Inv c (reset_dram f s) :=
  h

theorem inv_request (c : Cfg) (s : sim_cache) (a : Nat) (hW : c.WF) (h : Inv c s) :
    ∀ {s' : sim_cache} {w' : Nat}, request c s a = some (s', w') →
      Inv c s' ∧ w' < c.num_ways := by
  intro s' w' hr
  obtain ⟨hWa, hWr, hrows, hmask⟩ := hW
  obtain ⟨hTU, hF, hR, hL⟩ := h
  have hsd : (parse_address c a).2.1 < c.num_rows :=
    parse_set_lt c a ⟨hWa, hWr, hrows, hmask⟩
  cases hfind : find_way c s a with
  | some w =>
    rw [request_eq_hit c s a w hfind] at hr
    have hpair := Option.some.inj hr
    have hs' : request_hit_state c s a w = s' := congrArg Prod.fst hpair
    have hw' : w = w' := congrArg Prod.snd hpair
    subst hs'
    subst hw'
    have hwW := (find_way_some c s a w hfind).1
    refine ⟨⟨?_, ?_, ?_, ?_⟩, hwW⟩
    · intro sd hsd' w1 h1 w2 h2 hv1 hv2 ht
      rw [request_hit_state_valid_array] at hv1 hv2
      rw [request_hit_state_tag_array] at ht
      exact hTU sd hsd' w1 h1 w2 h2 hv1 hv2 ht
    · intro hpol sd hsd'
      rw [request_hit_state_fifo_array]
      exact hF hpol sd hsd'
    · intro hpol
      exact request_hit_state_random_lt c s a w hWa hpol
    · intro hpol sd hsd'
      rw [request_hit_state_lru_array_of_lru c s a w hpol]
      dsimp only
      by_cases hsd2 : sd = (parse_address c a).2.1
      · have heq : (fun v => if sd = (parse_address c a).2.1 then
            lruUpd c.num_ways (s.lru_array (parse_address c a).2.1) w v
          else s.lru_array sd v) = lruUpd c.num_ways (s.lru_array (parse_address c a).2.1) w := by
          funext v
          rw [if_pos hsd2]
        rw [heq]
        exact lruUpd_LruInv c.num_ways _ w hwW (hL hpol _ (hsd2 ▸ hsd'))
      · have heq : (fun v => if sd = (parse_address c a).2.1 then
            lruUpd c.num_ways (s.lru_array (parse_address c a).2.1) w v
          else s.lru_array sd v) = s.lru_array sd := by
          funext v
          rw [if_neg hsd2]
        rw [heq]
        exact hL hpol sd hsd'
  | none =>
    have hvx : ∃ v, way_to_evict c
        (update_random c (if is_data_hazard c s a then 1 else 0) s)
        (parse_address c a).2.1 = some v ∧ v < c.num_ways := by
      apply way_to_evict_lt c _ _ hWa hsd
      · intro hpol x hx
        rw [update_random_fifo_array]
        exact hF hpol x hx
      · intro hpol
        exact update_random_random_lt _ _ _ hWa hpol
      · intro hpol
        rw [update_random_lru_array]
        exact (hL hpol _ hsd).2.2
    obtain ⟨we, hv, hweW⟩ := hvx
    rw [request_eq_miss c s a we hfind hv] at hr
    have hpair := Option.some.inj hr
    have hs' : request_miss_state c s a we = s' := congrArg Prod.fst hpair
    have hw' : we = w' := congrArg Prod.snd hpair
    subst hs'
    subst hw'
    have hnone := find_way_none c s a hfind
    refine ⟨⟨?_, ?_, ?_, ?_⟩, hweW⟩
    · intro sd hsd' w1 h1 w2 h2 hv1 hv2 ht
      rw [request_miss_state_valid_array] at hv1 hv2
      rw [request_miss_state_tag_array] at ht
      dsimp only at hv1 hv2 ht
      by_cases e1 : sd = (parse_address c a).2.1 ∧ w1 = we
      · by_cases e2 : sd = (parse_address c a).2.1 ∧ w2 = we
        · rw [e1.2, e2.2]
        · exfalso
          rw [if_pos e1] at ht
          rw [if_neg e2] at hv2 ht
          apply hnone w2 h2
          rw [← e1.1]
          exact ⟨hv2, ht.symm⟩
      · by_cases e2 : sd = (parse_address c a).2.1 ∧ w2 = we
        · exfalso
          rw [if_pos e2] at ht
          rw [if_neg e1] at hv1 ht
          apply hnone w1 h1
          rw [← e2.1]
          exact ⟨hv1, ht⟩
        · rw [if_neg e1] at hv1 ht
          rw [if_neg e2] at hv2 ht
          exact hTU sd hsd' w1 h1 w2 h2 hv1 hv2 ht
    · intro hpol sd hsd'
      rw [request_miss_state_fifo_array_of_fifo c s a we hpol]
      dsimp only
      by_cases hsd2 : sd = (parse_address c a).2.1
      · rw [if_pos hsd2]
        exact Nat.mod_lt _ hWa
      · rw [if_neg hsd2]
        exact hF hpol sd hsd'
    · intro hpol
      exact request_miss_state_random_lt c s a we hWa hpol
    · intro hpol sd hsd'
      rw [request_miss_state_lru_array_of_lru c s a we hpol]
      dsimp only
      by_cases hsd2 : sd = (parse_address c a).2.1
      · have heq : (fun v => if sd = (parse_address c a).2.1 then
            lruUpd c.num_ways (s.lru_array (parse_address c a).2.1) we v
          else s.lru_array sd v) = lruUpd c.num_ways (s.lru_array (parse_address c a).2.1) we := by
          funext v
          rw [if_pos hsd2]
        rw [heq]
        exact lruUpd_LruInv c.num_ways _ we hweW (hL hpol _ (hsd2 ▸ hsd'))
      · have heq : (fun v => if sd = (parse_address c a).2.1 then
            lruUpd c.num_ways (s.lru_array (parse_address c a).2.1) we v
          else s.lru_array sd v) = s.lru_array sd := by
          funext v
          rw [if_neg hsd2]
        rw [heq]
        exact hL hpol sd hsd'

theorem inv_flush (c : Cfg) (s : sim_cache) (hW : c.WF) (h : Inv c s) :
    Inv c (flush c s).1 := by
  obtain ⟨hWa, hWr, hrows, hmask⟩ := hW
  obtain ⟨hTU, hF, hR, hL⟩ := h
  refine ⟨?_, ?_, ?_, ?_⟩
  · intro sd hsd w1 h1 w2 h2 hv1 hv2 ht
    rw [flush_valid_array] at hv1 hv2
    rw [flush_tag_array] at ht
    exact hTU sd hsd w1 h1 w2 h2 hv1 hv2 ht
  · intro hpol sd hsd
    rw [flush_fifo_array]
    exact hF hpol sd hsd
  · intro hpol
    exact flush_random_lt c s hWa hpol
  · intro hpol sd hsd
    rw [flush_lru_array]
    exact hL hpol sd hsd

theorem inv_stall (c : Cfg) (s : sim_cache) (a : Nat) (hW : c.WF) (h : Inv c s) :
    ∀ {s' : sim_cache} {n : Nat}, stall_cycles c s a = some (s', n) → Inv c s' := by
  intro s' n hs
  obtain ⟨hWa, hWr, hrows, hmask⟩ := hW
  have hsd : (parse_address c a).2.1 < c.num_rows :=
    parse_set_lt c a ⟨hWa, hWr, hrows, hmask⟩
  cases hfind : find_way c s a with
  | some w =>
    rw [stall_cycles_hit_state c s a w hWa h.2.2.1 hfind] at hs
    have hs' : s = s' := congrArg Prod.fst (Option.some.inj hs)
    rw [← hs']
    exact h
  | none =>
    cases hv : way_to_evict c (if is_data_hazard c s a then update_random c 1 s else s)
        (parse_address c a).2.1 with
    | none =>
      rw [stall_cycles_eq_none c s a hfind hv] at hs
      exact Option.noConfusion hs
    | some we =>
      rw [stall_cycles_miss_state c s a we hWa h.2.2.1 hfind hv] at hs
      have hs' : set_dram_stalls s 0 = s' := congrArg Prod.fst (Option.some.inj hs)
      rw [← hs']
      exact h

theorem inv_write (c : Cfg) (s : sim_cache) (a : Nat) (m : Nat → Bool) (d : Nat)
    (hW : c.WF) (h : Inv c s) :
    ∀ {s' : sim_cache}, write c s a m d = some s' → Inv c s' := by
  intro s' hw
  cases hreq : request c s a with
  | none =>
    unfold write at hw
    rw [hreq] at hw
    exact Option.noConfusion hw
  | some p =>
    obtain ⟨s1, w⟩ := p
    rw [write_eq c s a m d s1 w hreq] at hw
    have hs' := Option.some.inj hw
    rw [← hs']
    exact (inv_request c s a hW h hreq).1

theorem inv_read (c : Cfg) (s : sim_cache) (a : Nat) (hW : c.WF) (h : Inv c s) :
    ∀ {s' : sim_cache} {v : Nat}, read c s a = some (s', v) → Inv c s' := by
  intro s' v hrd
  cases hreq : request c s a with
  | none =>
    unfold read at hrd
    rw [hreq] at hrd
    exact Option.noConfusion hrd
  | some p =>
    obtain ⟨s1, w⟩ := p
    rw [read_eq c s a s1 w hreq] at hrd
    have hs' : s1 = s' := congrArg Prod.fst (Option.some.inj hrd)
    rw [← hs']
    exact (inv_request c s a hW h hreq).1

/-- Every reachable simulator state satisfies the structural invariant. -/
theorem reachable_inv (c : Cfg) (s : sim_cache) (hW : c.WF) (h : Reachable c s) :
    Inv c s := by
  induction h with
  | init s0 f => exact inv_reset_dram c f _ (inv_reset c s0 hW)
  | step_reset hprev ih => exact inv_reset c _ hW
  | step_flush hprev ih => exact inv_flush c _ hW ih
  | step_read hprev hop ih => exact inv_read c _ _ hW ih hop
  | step_write hprev hop ih => exact inv_write c _ _ _ _ hW ih hop
  | step_stall hprev hop ih => exact inv_stall c _ _ hW ih hop

end OpenCacheSim

namespace OpenCacheSim

/-! ### Write-then-read round trip -/

/-- After a write hit, the written way still holds the line, and an
immediate read of the same address returns the written word. -/
theorem write_hit_spec (c : Cfg) (s : sim_cache) (a d w : Nat) (hW : c.WF)
    (hfind : find_way c s a = some w) (hd : d < 2 ^ c.word_size) :
    write c s a (fun _ => true) d =
      some (writeState c (request_hit_state c s a w) (parse_address c a).2.1
        (parse_address c a).2.2 (fun _ => true) d w) ∧
    find_way c (writeState c (request_hit_state c s a w) (parse_address c a).2.1
        (parse_address c a).2.2 (fun _ => true) d w) a = some w ∧
    ∃ s2, read c (writeState c (request_hit_state c s a w) (parse_address c a).2.1
        (parse_address c a).2.2 (fun _ => true) d w) a = some (s2, d) := by
  have hwrite := write_eq c s a (fun _ => true) d (request_hit_state c s a w) w
    (request_eq_hit c s a w hfind)
  have hvalid : (writeState c (request_hit_state c s a w) (parse_address c a).2.1
      (parse_address c a).2.2 (fun _ => true) d w).valid_array = s.valid_array := by
    rw [writeState_valid_array, request_hit_state_valid_array]
  have htag : (writeState c (request_hit_state c s a w) (parse_address c a).2.1
      (parse_address c a).2.2 (fun _ => true) d w).tag_array = s.tag_array := by
    rw [writeState_tag_array, request_hit_state_tag_array]
  have hfind1 : find_way c (writeState c (request_hit_state c s a w) (parse_address c a).2.1
      (parse_address c a).2.2 (fun _ => true) d w) a = some w := by
    rw [find_way_congr c s _ a hvalid htag]
    exact hfind
  refine ⟨hwrite, hfind1, ?_⟩
  have hread := read_eq c _ a _ w (request_eq_hit c _ a w hfind1)
  have hval : (request_hit_state c (writeState c (request_hit_state c s a w)
      (parse_address c a).2.1 (parse_address c a).2.2 (fun _ => true) d w) a w).data_array
      (parse_address c a).2.1 w (parse_address c a).2.2 = d := by
    rw [request_hit_state_data_array, writeState_data_array]
    dsimp only
    rw [if_pos ⟨rfl, rfl, rfl⟩]
    exact wr_mask_data_full c d _ hW.2.2.2 hd
  rw [hval] at hread
  exact ⟨_, hread⟩

/-- After a write miss that filled way `we`, the filled way holds the
line, and an immediate read of the same address returns the written
word. -/
theorem write_miss_spec (c : Cfg) (s : sim_cache) (a d we : Nat) (hW : c.WF)
    (hfind : find_way c s a = none) (hweW : we < c.num_ways)
    (hv : way_to_evict c (update_random c (if is_data_hazard c s a then 1 else 0) s)
      (parse_address c a).2.1 = some we)
    (hd : d < 2 ^ c.word_size) :
    write c s a (fun _ => true) d =
      some (writeState c (request_miss_state c s a we) (parse_address c a).2.1
        (parse_address c a).2.2 (fun _ => true) d we) ∧
    find_way c (writeState c (request_miss_state c s a we) (parse_address c a).2.1
        (parse_address c a).2.2 (fun _ => true) d we) a = some we ∧
    ∃ s2, read c (writeState c (request_miss_state c s a we) (parse_address c a).2.1
        (parse_address c a).2.2 (fun _ => true) d we) a = some (s2, d) := by
  have hwrite := write_eq c s a (fun _ => true) d (request_miss_state c s a we) we
    (request_eq_miss c s a we hfind hv)
  have hnone := find_way_none c s a hfind
  have hvalid : ∀ x v, (writeState c (request_miss_state c s a we) (parse_address c a).2.1
      (parse_address c a).2.2 (fun _ => true) d we).valid_array x v =
      (if x = (parse_address c a).2.1 ∧ v = we then true else s.valid_array x v) := by
    intro x v
    rw [writeState_valid_array, request_miss_state_valid_array]
  have htag : ∀ x v, (writeState c (request_miss_state c s a we) (parse_address c a).2.1
      (parse_address c a).2.2 (fun _ => true) d we).tag_array x v =
      (if x = (parse_address c a).2.1 ∧ v = we then (parse_address c a).1
       else s.tag_array x v) := by
    intro x v
    rw [writeState_tag_array, request_miss_state_tag_array]
  have hfind1 : find_way c (writeState c (request_miss_state c s a we) (parse_address c a).2.1
      (parse_address c a).2.2 (fun _ => true) d we) a = some we := by
    apply find_way_eq_some_of_first c _ a we hweW
    · constructor
      · rw [hvalid]
        rw [if_pos ⟨rfl, rfl⟩]
      · rw [htag]
        rw [if_pos ⟨rfl, rfl⟩]
    · intro j hj hcon
      obtain ⟨hcv, hct⟩ := hcon
      rw [hvalid] at hcv
      rw [htag] at hct
      have hjne : ¬((parse_address c a).2.1 = (parse_address c a).2.1 ∧ j = we) := by
        intro hcon2
        omega
      rw [if_neg hjne] at hcv hct
      exact hnone j (lt_trans hj hweW) ⟨hcv, hct⟩
  refine ⟨hwrite, hfind1, ?_⟩
  have hread := read_eq c _ a _ we (request_eq_hit c _ a we hfind1)
  have hval : (request_hit_state c (writeState c (request_miss_state c s a we)
      (parse_address c a).2.1 (parse_address c a).2.2 (fun _ => true) d we) a we).data_array
      (parse_address c a).2.1 we (parse_address c a).2.2 = d := by
    rw [request_hit_state_data_array, writeState_data_array]
    dsimp only
    rw [if_pos ⟨rfl, rfl, rfl⟩]
    exact wr_mask_data_full c d _ hW.2.2.2 hd
  rw [hval] at hread
  exact ⟨_, hread⟩

/-- Round trip: a full-mask write immediately followed by a read of the
same address returns the written word, in every state satisfying the
structural invariant. -/
theorem write_read_roundtrip (c : Cfg) (s : sim_cache) (a d : Nat) (hW : c.WF)
    (hInv : Inv c s) (hd : d < 2 ^ c.word_size) :
    ∃ s1, write c s a (fun _ => true) d = some s1 ∧
      ∃ s2, read c s1 a = some (s2, d) := by
  cases hfind : find_way c s a with
  | some w =>
    obtain ⟨hwrite, _, hread⟩ := write_hit_spec c s a d w hW hfind hd
    exact ⟨_, hwrite, hread⟩
  | none =>
    obtain ⟨hWa, hWr, hrows, hmask⟩ := hW
    obtain ⟨hTU, hF, hR, hL⟩ := hInv
    have hsd : (parse_address c a).2.1 < c.num_rows :=
      parse_set_lt c a ⟨hWa, hWr, hrows, hmask⟩
    have hvx : ∃ v, way_to_evict c
        (update_random c (if is_data_hazard c s a then 1 else 0) s)
        (parse_address c a).2.1 = some v ∧ v < c.num_ways := by
      apply way_to_evict_lt c _ _ hWa hsd
      · intro hpol x hx
        rw [update_random_fifo_array]
        exact hF hpol x hx
      · intro hpol
        exact update_random_random_lt _ _ _ hWa hpol
      · intro hpol
        rw [update_random_lru_array]
        exact (hL hpol _ hsd).2.2
    obtain ⟨we, hv, hweW⟩ := hvx
    obtain ⟨hwrite, _, hread⟩ :=
      write_miss_spec c s a d we ⟨hWa, hWr, hrows, hmask⟩ hfind hweW hv hd
    exact ⟨_, hwrite, hread⟩

end OpenCacheSim

namespace OpenCacheSim

/-! ### What `flush` does to dirty bits and DRAM -/

theorem mem_flush_cells (c : Cfg) (r w : Nat) :
    (r, w) ∈ flush_cells c ↔ r < c.num_rows ∧ w < c.num_ways := by
  unfold flush_cells
  simp only [List.mem_flatMap, List.mem_map, List.mem_range, Prod.mk.injEq]
  constructor
  · rintro ⟨r', hr', w', hw', he1, he2⟩
    rw [← he1, ← he2]
    exact ⟨hr', hw'⟩
  · rintro ⟨hr, hw⟩
    exact ⟨r, hr, w, hw, rfl, rfl⟩

theorem flush_step_dirty (c : Cfg) (acc : sim_cache × Nat) (rw : Nat × Nat) :
    (flush_step c acc rw).1.dirty_array = fun x y =>
      if x = rw.1 ∧ y = rw.2 ∧ acc.1.valid_array rw.1 rw.2 = true then false
      else acc.1.dirty_array x y := by
  unfold flush_step
  dsimp only
  by_cases hb : acc.1.valid_array rw.1 rw.2 && acc.1.dirty_array rw.1 rw.2
  · rw [if_pos hb]
    obtain ⟨hbv, hbd⟩ := Bool.and_eq_true_iff.mp hb
    dsimp only
    funext x y
    by_cases hxy : x = rw.1 ∧ y = rw.2
    · rw [if_pos hxy, if_pos ⟨hxy.1, hxy.2, hbv⟩]
    · rw [if_neg hxy, if_neg (fun hc => hxy ⟨hc.1, hc.2.1⟩)]
  · rw [if_neg hb]
    dsimp only
    funext x y
    by_cases hxy : x = rw.1 ∧ y = rw.2 ∧ acc.1.valid_array rw.1 rw.2 = true
    · rw [if_pos hxy]
      have hd : acc.1.dirty_array rw.1 rw.2 = false := by
        rcases Bool.eq_false_or_eq_true (acc.1.dirty_array rw.1 rw.2) with h | h
        · exfalso
          apply hb
          rw [hxy.2.2, h]
          rfl
        · exact h
      rw [hxy.1, hxy.2.1, hd]
    · rw [if_neg hxy]

theorem flush_step_dram_no_write (c : Cfg) (acc : sim_cache × Nat) (rw : Nat × Nat) (A : Nat)
    (h : ¬(acc.1.valid_array rw.1 rw.2 = true ∧ acc.1.dirty_array rw.1 rw.2 = true ∧
      lineAddr c (acc.1.tag_array rw.1 rw.2) rw.1 = A)) :
    (flush_step c acc rw).1.dram A = acc.1.dram A := by
  unfold flush_step
  dsimp only
  by_cases hb : acc.1.valid_array rw.1 rw.2 && acc.1.dirty_array rw.1 rw.2
  · rw [if_pos hb]
    obtain ⟨hbv, hbd⟩ := Bool.and_eq_true_iff.mp hb
    have hne : ¬ A = lineAddr c (acc.1.tag_array rw.1 rw.2) rw.1 := by
      intro hc
      exact h ⟨hbv, hbd, hc.symm⟩
    dsimp only
    funext i
    rw [if_neg hne]
  · rw [if_neg hb]

theorem flush_step_dram_write (c : Cfg) (acc : sim_cache × Nat) (rw : Nat × Nat)
    (hv : acc.1.valid_array rw.1 rw.2 = true) (hd : acc.1.dirty_array rw.1 rw.2 = true) :
    (flush_step c acc rw).1.dram (lineAddr c (acc.1.tag_array rw.1 rw.2) rw.1) =
      acc.1.data_array rw.1 rw.2 := by
  unfold flush_step
  dsimp only
  rw [if_pos (by rw [hv, hd]; rfl)]
  dsimp only
  funext i
  rw [if_pos rfl]

theorem flush_fold_dirty (c : Cfg) :
    ∀ (L : List (Nat × Nat)) (acc : sim_cache × Nat),
      (L.foldl (flush_step c) acc).1.dirty_array = fun r w =>
        if (r, w) ∈ L ∧ acc.1.valid_array r w = true then false
        else acc.1.dirty_array r w := by
  intro L
  induction L with
  | nil =>
    intro acc
    funext r w
    rw [if_neg (fun hc => List.not_mem_nil _ hc.1)]
    rfl
  | cons hd tl ih =>
    intro acc
    simp only [List.foldl_cons]
    rw [ih (flush_step c acc hd)]
    funext r w
    rw [flush_step_valid_array, flush_step_dirty]
    dsimp only
    by_cases hv : acc.1.valid_array r w = true
    · by_cases hmem : (r, w) ∈ tl
      · rw [if_pos ⟨hmem, hv⟩, if_pos ⟨List.mem_cons_of_mem hd hmem, hv⟩]
      · rw [if_neg (fun hc => hmem hc.1)]
        by_cases hxy : r = hd.1 ∧ w = hd.2
        · have hvhd : acc.1.valid_array hd.1 hd.2 = true := by
            rw [← hxy.1, ← hxy.2]
            exact hv
          rw [if_pos ⟨hxy.1, hxy.2, hvhd⟩]
          have hmemc : (r, w) ∈ hd :: tl := by
            rw [show hd = (r, w) from Prod.ext hxy.1.symm hxy.2.symm]
            exact List.mem_cons_self _ _
          rw [if_pos ⟨hmemc, hv⟩]
        · rw [if_neg (fun hc => hxy ⟨hc.1, hc.2.1⟩)]
          have hnc : ¬((r, w) ∈ hd :: tl ∧ acc.1.valid_array r w = true) := by
            intro hc
            rcases List.mem_cons.mp hc.1 with h | h
            · exact hxy ⟨congrArg Prod.fst h, congrArg Prod.snd h⟩
            · exact hmem h
          rw [if_neg hnc]
    · have h1 : ¬((r, w) ∈ tl ∧ acc.1.valid_array r w = true) := fun hc => hv hc.2
      have h2 : ¬((r, w) ∈ hd :: tl ∧ acc.1.valid_array r w = true) := fun hc => hv hc.2
      rw [if_neg h1, if_neg h2]
      by_cases hxy : r = hd.1 ∧ w = hd.2
      · have hvhd : ¬ acc.1.valid_array hd.1 hd.2 = true := by
          rw [← hxy.1, ← hxy.2]
          exact hv
        rw [if_neg (fun hc => hvhd hc.2.2)]
      · rw [if_neg (fun hc => hxy ⟨hc.1, hc.2.1⟩)]

theorem flush_fold_dram_no_write (c : Cfg) :
    ∀ (L : List (Nat × Nat)) (acc : sim_cache × Nat) (A : Nat),
      (∀ rw ∈ L, ¬(acc.1.valid_array rw.1 rw.2 = true ∧ acc.1.dirty_array rw.1 rw.2 = true ∧
        lineAddr c (acc.1.tag_array rw.1 rw.2) rw.1 = A)) →
      (L.foldl (flush_step c) acc).1.dram A = acc.1.dram A := by
  intro L
  induction L with
  | nil => intro acc A _; rfl
  | cons hd tl ih =>
    intro acc A hno
    simp only [List.foldl_cons]
    rw [ih (flush_step c acc hd) A ?_, flush_step_dram_no_write c acc hd A
      (hno hd (List.mem_cons_self _ _))]
    intro rw hmem hcon
    apply hno rw (List.mem_cons_of_mem hd hmem)
    rw [flush_step_valid_array] at hcon
    rw [flush_step_tag_array] at hcon
    exact ⟨hcon.1, flush_step_dirty_mono c acc hd rw.1 rw.2 hcon.2.1, hcon.2.2⟩

theorem flush_fold_dram_write (c : Cfg) :
    ∀ (L : List (Nat × Nat)) (acc : sim_cache × Nat) (r w : Nat),
      (r, w) ∈ L →
      acc.1.valid_array r w = true →
      acc.1.dirty_array r w = true →
      (∀ rw ∈ L, rw ≠ (r, w) → ¬(acc.1.valid_array rw.1 rw.2 = true ∧
        lineAddr c (acc.1.tag_array rw.1 rw.2) rw.1 = lineAddr c (acc.1.tag_array r w) r)) →
      (L.foldl (flush_step c) acc).1.dram (lineAddr c (acc.1.tag_array r w) r) =
        acc.1.data_array r w := by
  intro L
  induction L with
  | nil => intro acc r w hmem; exact absurd hmem (List.not_mem_nil _)
  | cons hd tl ih =>
    intro acc r w hmem hval hdirty hothers
    simp only [List.foldl_cons]
    by_cases hhd : hd = (r, w)
    · subst hhd
      rw [flush_fold_dram_no_write c tl (flush_step c acc (r, w))
        (lineAddr c (acc.1.tag_array r w) r) ?_]
      · exact flush_step_dram_write c acc (r, w) hval hdirty
      · intro rw hmem2 hcon
        rw [flush_step_valid_array, flush_step_tag_array] at hcon
        by_cases hrw : rw = (r, w)
        · -- the own cell was just cleaned
          have hdf : (flush_step c acc (r, w)).1.dirty_array rw.1 rw.2 = false := by
            rw [flush_step_dirty]
            dsimp only
            rw [hrw]
            dsimp only
            rw [if_pos ⟨rfl, rfl, hval⟩]
          rw [hdf] at hcon
          exact Bool.noConfusion hcon.2.1
        · exact hothers rw (List.mem_cons_of_mem _ hmem2) hrw ⟨hcon.1, hcon.2.2⟩
    · -- a different cell is visited first
      have hmem' : (r, w) ∈ tl := by
        rcases List.mem_cons.mp hmem with h | h
        · exact absurd h.symm hhd
        · exact h
      have hnowrite : (flush_step c acc hd).1.dram (lineAddr c (acc.1.tag_array r w) r) =
          acc.1.dram (lineAddr c (acc.1.tag_array r w) r) := by
        apply flush_step_dram_no_write
        intro hcon
        exact hothers hd (List.mem_cons_self _ _) hhd ⟨hcon.1, hcon.2.2⟩
      have hdirty' : (flush_step c acc hd).1.dirty_array r w = true := by
        rw [flush_step_dirty]
        dsimp only
        by_cases hxy : r = hd.1 ∧ w = hd.2
        · exact absurd (Prod.ext hxy.1.symm hxy.2.symm) hhd
        · rw [if_neg (fun hc => hxy ⟨hc.1, hc.2.1⟩)]
          exact hdirty
      have htag' : (flush_step c acc hd).1.tag_array = acc.1.tag_array :=
        flush_step_tag_array c acc hd
      have hval' : (flush_step c acc hd).1.valid_array = acc.1.valid_array :=
        flush_step_valid_array c acc hd
      have hdata' : (flush_step c acc hd).1.data_array = acc.1.data_array :=
        flush_step_data_array c acc hd
      have := ih (flush_step c acc hd) r w hmem' (by rw [hval']; exact hval) hdirty' ?_
      · rw [htag'] at this
        rw [this, hdata']
      · intro rw hmem2 hne
        rw [hval', htag']
        exact hothers rw (List.mem_cons_of_mem _ hmem2) hne
  
theorem lineAddr_inj (c : Cfg) (t1 r1 t2 r2 : Nat)
    (h1 : r1 < 2 ^ c.set_size) (h2 : r2 < 2 ^ c.set_size)
    (he : lineAddr c t1 r1 = lineAddr c t2 r2) : t1 = t2 ∧ r1 = r2 := by
  unfold lineAddr at he
  have hd1 : (t1 * 2 ^ c.set_size + r1) / 2 ^ c.set_size = t1 := by
    rw [Nat.add_comm, Nat.add_mul_div_right _ _ (Nat.pos_pow_of_pos _ (by norm_num)),
      Nat.div_eq_of_lt h1]
    omega
  have hd2 : (t2 * 2 ^ c.set_size + r2) / 2 ^ c.set_size = t2 := by
    rw [Nat.add_comm, Nat.add_mul_div_right _ _ (Nat.pos_pow_of_pos _ (by norm_num)),
      Nat.div_eq_of_lt h2]
    omega
  have hm1 : (t1 * 2 ^ c.set_size + r1) % 2 ^ c.set_size = r1 := by
    rw [Nat.add_comm, Nat.add_mul_mod_self_right, Nat.mod_eq_of_lt h1]
  have hm2 : (t2 * 2 ^ c.set_size + r2) % 2 ^ c.set_size = r2 := by
    rw [Nat.add_comm, Nat.add_mul_mod_self_right, Nat.mod_eq_of_lt h2]
  constructor
  · rw [← hd1, ← hd2, he]
  · rw [← hm1, ← hm2, he]

theorem flush_dirty_array (c : Cfg) (s : sim_cache) :
    (flush c s).1.dirty_array =
      ((flush_cells c).foldl (flush_step c)
        (s, if c.data_hazard && (s.prev_set == some 0) then 1 else 0)).1.dirty_array := by
  unfold flush
  dsimp only
  rw [update_random_dirty_array]

theorem flush_dram (c : Cfg) (s : sim_cache) :
    (flush c s).1.dram =
      ((flush_cells c).foldl (flush_step c)
        (s, if c.data_hazard && (s.prev_set == some 0) then 1 else 0)).1.dram := by
  unfold flush
  dsimp only
  rw [update_random_dram]

end OpenCacheSim

namespace OpenCacheSim

/-! ### Rank bijectivity through `request` -/

theorem request_isPerm (c : Cfg) (s : sim_cache) (a : Nat) (hW : c.WF)
    (hpol : c.replacement_policy = RP.LRU)
    (hperm : ∀ sd, sd < c.num_rows → IsPerm c.num_ways (s.lru_array sd)) :
    ∀ {s' : sim_cache} {w' : Nat}, request c s a = some (s', w') →
      ∀ sd, sd < c.num_rows → IsPerm c.num_ways (s'.lru_array sd) := by
  intro s' w' hr sd hsd
  obtain ⟨hWa, hWr, hrows, hmask⟩ := hW
  have hpsd : (parse_address c a).2.1 < c.num_rows :=
    parse_set_lt c a ⟨hWa, hWr, hrows, hmask⟩
  cases hfind : find_way c s a with
  | some w =>
    rw [request_eq_hit c s a w hfind] at hr
    have hs' : request_hit_state c s a w = s' := congrArg Prod.fst (Option.some.inj hr)
    rw [← hs']
    have hwW := (find_way_some c s a w hfind).1
    rw [request_hit_state_lru_array_of_lru c s a w hpol]
    dsimp only
    by_cases hsd2 : sd = (parse_address c a).2.1
    · have heq : (fun v => if sd = (parse_address c a).2.1 then
          lruUpd c.num_ways (s.lru_array (parse_address c a).2.1) w v
        else s.lru_array sd v) = lruUpd c.num_ways (s.lru_array (parse_address c a).2.1) w := by
        funext v
        rw [if_pos hsd2]
      rw [heq]
      exact lruUpd_IsPerm c.num_ways _ w hwW (hperm _ (hsd2 ▸ hsd))
    · have heq : (fun v => if sd = (parse_address c a).2.1 then
          lruUpd c.num_ways (s.lru_array (parse_address c a).2.1) w v
        else s.lru_array sd v) = s.lru_array sd := by
        funext v
        rw [if_neg hsd2]
      rw [heq]
      exact hperm sd hsd
  | none =>
    have hvx : ∃ v, way_to_evict c
        (update_random c (if is_data_hazard c s a then 1 else 0) s)
        (parse_address c a).2.1 = some v ∧ v < c.num_ways := by
      apply way_to_evict_lt c _ _ hWa hpsd
      · intro hp x
        rw [hpol] at hp
        exact absurd hp (by decide)
      · intro hp
        rw [hpol] at hp
        exact absurd hp (by decide)
      · intro _
        rw [update_random_lru_array]
        exact (IsPerm_LruInv c.num_ways _ hWa (hperm _ hpsd)).2.2
    obtain ⟨we, hv, hweW⟩ := hvx
    rw [request_eq_miss c s a we hfind hv] at hr
    have hs' : request_miss_state c s a we = s' := congrArg Prod.fst (Option.some.inj hr)
    rw [← hs']
    rw [request_miss_state_lru_array_of_lru c s a we hpol]
    dsimp only
    by_cases hsd2 : sd = (parse_address c a).2.1
    · have heq : (fun v => if sd = (parse_address c a).2.1 then
          lruUpd c.num_ways (s.lru_array (parse_address c a).2.1) we v
        else s.lru_array sd v) = lruUpd c.num_ways (s.lru_array (parse_address c a).2.1) we := by
        funext v
        rw [if_pos hsd2]
      rw [heq]
      exact lruUpd_IsPerm c.num_ways _ we hweW (hperm _ (hsd2 ▸ hsd))
    · have heq : (fun v => if sd = (parse_address c a).2.1 then
          lruUpd c.num_ways (s.lru_array (parse_address c a).2.1) we v
        else s.lru_array sd v) = s.lru_array sd := by
        funext v
        rw [if_neg hsd2]
      rw [heq]
      exact hperm sd hsd

/-- C5 (counterexample): after `reset`, a 2-way LRU cache has rank 0 on
every way of set 0, so the rank array is not a bijection onto
`{0, 1}` — the claim fails right after reset (and hence "after every
operation" starting from reset). -/
theorem spec_c5_counterexample :
    cfgL2.replacement_policy = RP.LRU ∧ cfgL2.num_ways = 2 ∧
    (reset cfgL2 init0).1.lru_array 0 0 = 0 ∧
    (reset cfgL2 init0).1.lru_array 0 1 = 0 ∧
    ¬ IsPerm cfgL2.num_ways ((reset cfgL2 init0).1.lru_array 0) := by
  decide

/-- C5 (amended): after `reset` every LRU rank is 0 (which is a bijection
onto `0 .. num_ways-1` only for a single way); and whenever every set's
rank array is a bijection onto `0 .. num_ways-1`, it remains one after
every `read`, `write`, or `flush`. -/
theorem spec_c5_amended (c : Cfg) (hW : c.WF) (hpol : c.replacement_policy = RP.LRU) :
    (∀ (s : sim_cache) (sd w : Nat), (reset c s).1.lru_array sd w = 0) ∧
    (∀ s : sim_cache, (∀ sd, sd < c.num_rows → IsPerm c.num_ways (s.lru_array sd)) →
      (∀ (a : Nat) (m : Nat → Bool) (d : Nat) (s' : sim_cache), write c s a m d = some s' →
        ∀ sd, sd < c.num_rows → IsPerm c.num_ways (s'.lru_array sd)) ∧
      (∀ (a : Nat) (s' : sim_cache) (v : Nat), read c s a = some (s', v) →
        ∀ sd, sd < c.num_rows → IsPerm c.num_ways (s'.lru_array sd)) ∧
      (∀ sd, sd < c.num_rows → IsPerm c.num_ways ((flush c s).1.lru_array sd))) := by
  constructor
  · intro s sd w
    rw [reset_lru_array_of_lru c s hpol]
  · intro s hperm
    refine ⟨?_, ?_, ?_⟩
    · intro a m d s' hw sd hsd
      cases hreq : request c s a with
      | none =>
        unfold write at hw
        rw [hreq] at hw
        exact Option.noConfusion hw
      | some p =>
        obtain ⟨s1, w⟩ := p
        rw [write_eq c s a m d s1 w hreq] at hw
        have hs' := Option.some.inj hw
        rw [← hs', writeState_lru_array]
        exact request_isPerm c s a hW hpol hperm hreq sd hsd
    · intro a s' v hrd sd hsd
      cases hreq : request c s a with
      | none =>
        unfold read at hrd
        rw [hreq] at hrd
        exact Option.noConfusion hrd
      | some p =>
        obtain ⟨s1, w⟩ := p
        rw [read_eq c s a s1 w hreq] at hrd
        have hs' : s1 = s' := congrArg Prod.fst (Option.some.inj hrd)
        rw [← hs']
        exact request_isPerm c s a hW hpol hperm hreq sd hsd
    · intro sd hsd
      rw [flush_lru_array]
      exact hperm sd hsd

/-- C5 (witness): the amended preservation statement applied to a
concrete one-way LRU configuration in its reset state. -/
theorem spec_c5_witness :
    (cfgL1.WF ∧ cfgL1.replacement_policy = RP.LRU ∧
      (∀ sd, sd < cfgL1.num_rows → IsPerm cfgL1.num_ways ((initState cfgL1).lru_array sd))) ∧
    (∀ sd, sd < cfgL1.num_rows →
      IsPerm cfgL1.num_ways ((flush cfgL1 (initState cfgL1)).1.lru_array sd)) := by
  have hP : ∀ sd, sd < cfgL1.num_rows → IsPerm cfgL1.num_ways ((initState cfgL1).lru_array sd) := by
    intro sd hsd
    have h0 : (initState cfgL1).lru_array sd = fun _ => 0 := rfl
    rw [h0]
    decide
  exact ⟨⟨by decide, rfl, hP⟩,
    ((spec_c5_amended cfgL1 (by decide) rfl).2 (initState cfgL1) hP).2.2⟩

/-- C6 (counterexample): in a freshly reset 2-way RANDOM cache both ways
of set 0 are invalid; `way_to_evict` returns way 1 (the *last* invalid
way), not way 0 (the first invalid way) the claim predicts. -/
theorem spec_c6_counterexample :
    cfgR2.replacement_policy = RP.RANDOM ∧
    (initState cfgR2).valid_array 0 0 = false ∧
    (initState cfgR2).valid_array 0 1 = false ∧
    way_to_evict cfgR2 (initState cfgR2) 0 = some 1 ∧
    way_to_evict cfgR2 (initState cfgR2) 0 ≠ some 0 := by
  decide

/-- C6 (amended): under the RANDOM policy, `way_to_evict` returns the
*last* invalid way of the set if any way is invalid, and the current
value of the free-running counter otherwise. -/
theorem spec_c6_amended (c : Cfg) (s : sim_cache) (sd : Nat)
    (hpol : c.replacement_policy = RP.RANDOM) :
    ((∀ i, i < c.num_ways → s.valid_array sd i = true) →
      way_to_evict c s sd = some s.random) ∧
    (∀ i, i < c.num_ways → s.valid_array sd i = false →
      (∀ j, i < j → j < c.num_ways → s.valid_array sd j = true) →
      way_to_evict c s sd = some i) := by
  constructor
  · intro hall
    unfold way_to_evict
    rw [hpol]
    have hno : ∀ i, i < c.num_ways → ¬ s.valid_array sd i = false := by
      intro i hi hc
      rw [hall i hi] at hc
      exact Bool.noConfusion hc
    rw [foldl_lastmatch_none c.num_ways hno none]
  · intro i hi hinv hlast
    unfold way_to_evict
    rw [hpol]
    have hlast' : ∀ j, i < j → j < c.num_ways → ¬ s.valid_array sd j = false := by
      intro j hj1 hj2 hc
      rw [hlast j hj1 hj2] at hc
      exact Bool.noConfusion hc
    rw [foldl_lastmatch_last c.num_ways i hi hinv hlast' none]

/-- C6 (witness): the amended statement evaluated on the reset state of a
2-way RANDOM cache (way 1 is the last invalid way). -/
theorem spec_c6_witness :
    (cfgR2.replacement_policy = RP.RANDOM ∧ 1 < cfgR2.num_ways ∧
      (initState cfgR2).valid_array 0 1 = false) ∧
    way_to_evict cfgR2 (initState cfgR2) 0 = some 1 := by
  refine ⟨⟨rfl, by decide, by decide⟩, ?_⟩
  exact (spec_c6_amended cfgR2 (initState cfgR2) 0 rfl).2 1 (by decide) (by decide)
    (fun j hj1 hj2 => absurd (show j < 2 from hj2) (by omega))

/-- C8: after `reset` every line is invalid (valid and dirty bits all
cleared), and the returned stall count is `num_rows + 1 - 1`: the FSM
spends `num_rows + 1` cycles reaching IDLE and the harness spends one
cycle submitting the request. -/
theorem spec_c8_reset (c : Cfg) (s : sim_cache) :
    (∀ sd w, (reset c s).1.valid_array sd w = false) ∧
    (∀ sd w, (reset c s).1.dirty_array sd w = false) ∧
    (reset c s).2 = c.num_rows + 1 - 1 := by
  refine ⟨?_, ?_, reset_snd c s⟩
  · intro sd w
    rw [reset_valid_array]
  · intro sd w
    rw [reset_dirty_array]

/-- C9: under the FIFO policy the per-set pointer is 0 after `reset`,
each fill increments it modulo `num_ways`, and in every reachable state
of a well-formed configuration every set's pointer is below `num_ways`. -/
theorem spec_c9_fifo (c : Cfg) :
    (∀ s : sim_cache, c.replacement_policy = RP.FIFO →
      ∀ sd, (reset c s).1.fifo_array sd = 0) ∧
    (∀ (s : sim_cache) (sd : Nat), c.replacement_policy = RP.FIFO →
      (update_fifo c sd s).fifo_array sd = (s.fifo_array sd + 1) % c.num_ways) ∧
    (∀ s : sim_cache, c.WF → Reachable c s → c.replacement_policy = RP.FIFO →
      ∀ sd, sd < c.num_rows → s.fifo_array sd < c.num_ways) := by
  refine ⟨?_, ?_, ?_⟩
  · intro s hpol sd
    rw [reset_fifo_array_of_fifo c s hpol]
  · intro s sd hpol
    rw [update_fifo_fifo_array c sd s hpol]
    dsimp only
    rw [if_pos rfl]
  · intro s hW hreach hpol sd hsd
    exact (reachable_inv c s hW hreach).2.1 hpol sd hsd

/-- C9 (witness): the three parts evaluated on a concrete 2-way FIFO
configuration and its reachable reset state. -/
theorem spec_c9_witness :
    (cfgF2.replacement_policy = RP.FIFO ∧ cfgF2.WF) ∧
    (reset cfgF2 init0).1.fifo_array 0 = 0 ∧
    (update_fifo cfgF2 0 init0).fifo_array 0 = (init0.fifo_array 0 + 1) % cfgF2.num_ways ∧
    (initState cfgF2).fifo_array 0 < cfgF2.num_ways := by
  refine ⟨⟨rfl, by decide⟩, ?_, ?_, ?_⟩
  · exact (spec_c9_fifo cfgF2).1 init0 rfl 0
  · exact (spec_c9_fifo cfgF2).2.1 init0 0 rfl
  · exact (spec_c9_fifo cfgF2).2.2 (initState cfgF2) (by decide)
      (Reachable.init init0 (fun _ _ => 0)) rfl 0 (by decide)

end OpenCacheSim

namespace OpenCacheSim

/-- C1 (counterexample): `stall_cycles` is not a pure function of the
state: at a state with `dram_stalls = 1` and a missing address it
returns 3 but zeroes `dram_stalls`, so an immediately repeated call
returns 2. -/
theorem spec_c1_counterexample :
    stStall.dram_stalls = 1 ∧
    (stall_cycles cfgDnh stStall 0).map Prod.snd = some 3 ∧
    ((stall_cycles cfgDnh stStall 0).map fun p => p.1.dram_stalls) = some 0 ∧
    ((stall_cycles cfgDnh stStall 0).bind fun p => stall_cycles cfgDnh p.1 0).map Prod.snd =
      some 2 ∧
    (3 : Nat) ≠ 2 := by
  decide

/-- C1 (amended): `stall_cycles` leaves every field of the simulator
unchanged except `dram_stalls` — in particular the Random-policy counter
is bumped and reverted, hence unchanged in every state where it is in
range, as it is in every reachable state; `dram_stalls` is kept on a hit
and zeroed on a miss.  Consequently two calls in a row return the same
result whenever the address hits or `dram_stalls` is already 0; on a hit
the state is completely unchanged. -/
theorem spec_c1_amended (c : Cfg) (s : sim_cache) (a : Nat) (hW : c.WF)
    (hrand : c.replacement_policy = RP.RANDOM → s.random < c.num_ways) :
    (∀ w, find_way c s a = some w →
      stall_cycles c s a = some (s, if is_data_hazard c s a then 1 else 0)) ∧
    (∀ s' n, stall_cycles c s a = some (s', n) →
      s'.valid_array = s.valid_array ∧ s'.dirty_array = s.dirty_array ∧
      s'.tag_array = s.tag_array ∧ s'.data_array = s.data_array ∧
      s'.prev_hit = s.prev_hit ∧ s'.prev_web = s.prev_web ∧ s'.prev_set = s.prev_set ∧
      s'.fifo_array = s.fifo_array ∧ s'.lru_array = s.lru_array ∧
      s'.random = s.random ∧ s'.dram = s.dram ∧
      s'.dram_stalls = (if (find_way c s a).isSome then s.dram_stalls else 0)) ∧
    ((find_way c s a).isSome ∨ s.dram_stalls = 0 →
      ∀ s' n, stall_cycles c s a = some (s', n) → stall_cycles c s' a = some (s', n)) := by
  have hWa : 0 < c.num_ways := hW.1
  refine ⟨?_, ?_, ?_⟩
  · intro w hfind
    exact stall_cycles_hit_state c s a w hWa hrand hfind
  · intro s' n h
    cases hfind : find_way c s a with
    | some w =>
      rw [stall_cycles_hit_state c s a w hWa hrand hfind] at h
      have hs' : s = s' := congrArg Prod.fst (Option.some.inj h)
      rw [← hs']
      exact ⟨rfl, rfl, rfl, rfl, rfl, rfl, rfl, rfl, rfl, rfl, rfl, rfl⟩
    | none =>
      cases hv : way_to_evict c (if is_data_hazard c s a then update_random c 1 s else s)
          (parse_address c a).2.1 with
      | none =>
        rw [stall_cycles_eq_none c s a hfind hv] at h
        exact Option.noConfusion h
      | some we =>
        rw [stall_cycles_miss_state c s a we hWa hrand hfind hv] at h
        have hs' : set_dram_stalls s 0 = s' := congrArg Prod.fst (Option.some.inj h)
        rw [← hs']
        exact ⟨rfl, rfl, rfl, rfl, rfl, rfl, rfl, rfl, rfl, rfl, rfl, rfl⟩
  · intro hc s' n h
    have hs'eq : s' = s := by
      rcases hc with hsome | hds0
      · obtain ⟨w, hfind⟩ := Option.isSome_iff_exists.mp hsome
        rw [stall_cycles_hit_state c s a w hWa hrand hfind] at h
        exact (congrArg Prod.fst (Option.some.inj h)).symm
      · cases hfind : find_way c s a with
        | some w =>
          rw [stall_cycles_hit_state c s a w hWa hrand hfind] at h
          exact (congrArg Prod.fst (Option.some.inj h)).symm
        | none =>
          cases hv : way_to_evict c (if is_data_hazard c s a then update_random c 1 s else s)
              (parse_address c a).2.1 with
          | none =>
            rw [stall_cycles_eq_none c s a hfind hv] at h
            exact Option.noConfusion h
          | some we =>
            rw [stall_cycles_miss_state c s a we hWa hrand hfind hv] at h
            have h1 : set_dram_stalls s 0 = s' := congrArg Prod.fst (Option.some.inj h)
            have h2 : set_dram_stalls s 0 = s := by
              rw [show (0 : Nat) = s.dram_stalls from hds0.symm]
              rfl
            rw [← h1, h2]
    rw [hs'eq] at h ⊢
    exact h

/-- C1 (witness): the amended statement evaluated at a concrete hit —
the state is unchanged and the repeated call agrees. -/
theorem spec_c1_witness :
    (cfgDh.WF ∧ (cfgDh.replacement_policy = RP.RANDOM → stWhit.random < cfgDh.num_ways) ∧
      find_way cfgDh stWhit 0 = some 0) ∧
    stall_cycles cfgDh stWhit 0 = some (stWhit, if is_data_hazard cfgDh stWhit 0 then 1 else 0) :=
  ⟨⟨by decide, fun hp => absurd hp (by decide), by decide⟩,
    (spec_c1_amended cfgDh stWhit 0 (by decide)
      (fun hp => absurd hp (by decide))).1 0 (by decide)⟩

/-- C2: the stall-cycle count of a request is: on a hit, 1 if a data
hazard is detected and 0 otherwise; on a miss, the hazard term plus 1
cycle for the COMPARE decision, plus the carried-over `dram_stalls`,
plus `2 * DRAM_DELAY + 1` if the victim chosen by `way_to_evict` (with
the temporarily advanced random counter) is dirty and `DRAM_DELAY` if it
is clean. -/
theorem spec_c2_stall_count (c : Cfg) (s : sim_cache) (a : Nat) (hW : c.WF) :
    (∀ w, find_way c s a = some w →
      (stall_cycles c s a).map Prod.snd = some (if is_data_hazard c s a then 1 else 0)) ∧
    (find_way c s a = none →
      ∀ v, way_to_evict c (if is_data_hazard c s a then update_random c 1 s else s)
        (parse_address c a).2.1 = some v →
      (stall_cycles c s a).map Prod.snd = some
        ((if is_data_hazard c s a then 1 else 0) + 1 + s.dram_stalls +
          if s.dirty_array (parse_address c a).2.1 v then 2 * c.DRAM_DELAY + 1
          else c.DRAM_DELAY)) := by
  constructor
  · intro w hfind
    rw [stall_cycles_eq_hit c s a w hfind]
    rfl
  · intro hf v hv
    rw [stall_cycles_eq_miss c s a v hf hv]
    simp [Nat.mul_comm]

/-- C2 (witness): a concrete dirty miss with a data hazard — the count
is 1 (hazard) + 1 (COMPARE) + 0 (no carried-over stalls) + 3
(write-back and fill with `DRAM_DELAY = 1`). -/
theorem spec_c2_witness :
    (cfgDh.WF ∧ find_way cfgDh stWhit 8 = none ∧
      way_to_evict cfgDh
        (if is_data_hazard cfgDh stWhit 8 then update_random cfgDh 1 stWhit else stWhit)
        (parse_address cfgDh 8).2.1 = some 0) ∧
    (stall_cycles cfgDh stWhit 8).map Prod.snd = some 5 := by
  refine ⟨⟨by decide, by decide, by decide⟩, ?_⟩
  have h := (spec_c2_stall_count cfgDh stWhit 8 (by decide)).2 (by decide) 0 (by decide)
  rw [h]
  decide

/-- C3: in every reachable state of a well-formed configuration, a
full-mask write of a word `d` below `2^word_size` immediately followed
by a read of the same address returns `d`. -/
theorem spec_c3_roundtrip (c : Cfg) (s : sim_cache) (a d : Nat) (hW : c.WF)
    (hreach : Reachable c s) (hd : d < 2 ^ c.word_size) :
    ∃ s1, write c s a (fun _ => true) d = some s1 ∧
      ∃ s2, read c s1 a = some (s2, d) :=
  write_read_roundtrip c s a d hW (reachable_inv c s hW hreach) hd

/-- C3 (witness): the round trip evaluated from the reachable reset
state of a concrete configuration. -/
theorem spec_c3_witness :
    (cfgDh.WF ∧ 3 < 2 ^ cfgDh.word_size) ∧
    (∃ s1, write cfgDh (initState cfgDh) 0 (fun _ => true) 3 = some s1 ∧
      ∃ s2, read cfgDh s1 0 = some (s2, 3)) :=
  ⟨⟨by decide, by decide⟩,
    spec_c3_roundtrip cfgDh (initState cfgDh) 0 3 (by decide)
      (Reachable.init init0 (fun _ _ => 0)) (by decide)⟩

/-- C4 (counterexample): in a direct-mapped cache with `data_hazard =
true` (the claim's "hazard bypassing enabled"), a write hit to set 0
followed by a read of the same set costs exactly one stall cycle, not
zero as the claim states (the read still returns the just-written
data). -/
theorem spec_c4_counterexample :
    cfgDh.data_hazard = true ∧ cfgDh.num_ways = 1 ∧
    cfgDh.replacement_policy = RP.NONE ∧
    ((((write cfgDh (initState cfgDh) 0 (fun _ => true) 3).bind fun s1 =>
        write cfgDh s1 0 (fun _ => true) 5).bind fun s2 =>
        stall_cycles cfgDh s2 0).map Prod.snd = some 1) ∧
    some (1 : Nat) ≠ some 0 ∧
    ((((write cfgDh (initState cfgDh) 0 (fun _ => true) 3).bind fun s1 =>
        write cfgDh s1 0 (fun _ => true) 5).bind fun s2 =>
        read cfgDh s2 0).map Prod.snd = some 5) := by
  decide

/-- C4 (amended): in a direct-mapped cache (one way, NONE policy), after
a write hit the predicted stall count of a read of the same address is
exactly 1 when `data_hazard = true` and 0 when `data_hazard = false`,
and the read returns the just-written data. -/
theorem spec_c4_amended (c : Cfg) (s : sim_cache) (a d w : Nat) (hW : c.WF)
    (hpol : c.replacement_policy = RP.NONE) (hways : c.num_ways = 1)
    (hfind : find_way c s a = some w) (hd : d < 2 ^ c.word_size) :
    ∃ s1, write c s a (fun _ => true) d = some s1 ∧
      (stall_cycles c s1 a).map Prod.snd = some (if c.data_hazard then 1 else 0) ∧
      ∃ s2, read c s1 a = some (s2, d) := by
  obtain ⟨hwrite, hfind1, hread⟩ := write_hit_spec c s a d w hW hfind hd
  refine ⟨_, hwrite, ?_, hread⟩
  have hps : (writeState c (request_hit_state c s a w) (parse_address c a).2.1
      (parse_address c a).2.2 (fun _ => true) d w).prev_set =
      some (parse_address c a).2.1 := by
    rw [writeState_prev_set, request_hit_state_prev_set]
  have hph : (writeState c (request_hit_state c s a w) (parse_address c a).2.1
      (parse_address c a).2.2 (fun _ => true) d w).prev_hit = true := by
    rw [writeState_prev_hit, request_hit_state_prev_hit]
  have hhz : is_data_hazard c (writeState c (request_hit_state c s a w)
      (parse_address c a).2.1 (parse_address c a).2.2 (fun _ => true) d w) a =
      c.data_hazard := by
    unfold is_data_hazard
    cases hdh : c.data_hazard with
    | false => rfl
    | true =>
      dsimp only [Bool.not_true]
      rw [if_neg (by intro hcon; exact Bool.noConfusion hcon)]
      rw [hps]
      dsimp only
      rw [if_neg (by intro hcon; exact hcon rfl)]
      rw [if_neg (by rw [hpol]; intro hcon; cases hcon)]
      rw [hph, writeState_prev_web]
      rfl
  rw [stall_cycles_hit_state c _ a w hW.1
    (fun hp => by rw [hpol] at hp; cases hp) hfind1]
  rw [hhz]
  rfl

/-- C4 (witness): the amended statement evaluated at a concrete
direct-mapped configuration with `data_hazard = true`, starting from a
state holding a valid line. -/
theorem spec_c4_witness :
    (cfgDh.WF ∧ cfgDh.replacement_policy = RP.NONE ∧ cfgDh.num_ways = 1 ∧
      find_way cfgDh stWhit 0 = some 0 ∧ 5 < 2 ^ cfgDh.word_size ∧
      cfgDh.data_hazard = true) ∧
    (∃ s1, write cfgDh stWhit 0 (fun _ => true) 5 = some s1 ∧
      (stall_cycles cfgDh s1 0).map Prod.snd = some (if cfgDh.data_hazard then 1 else 0) ∧
      ∃ s2, read cfgDh s1 0 = some (s2, 5)) :=
  ⟨⟨by decide, rfl, rfl, by decide, by decide, rfl⟩,
    spec_c4_amended cfgDh stWhit 0 5 0 (by decide) rfl rfl (by decide) (by decide)⟩

/-- C7: after `flush`, every address that hit before the flush still
hits and reports a clean line (`is_dirty = some false`), and every line
that was valid and dirty has had its data written back to the DRAM line
`(tag << set_size) + row` (given per-set tag uniqueness, as in every
reachable state). -/
theorem spec_c7_flush (c : Cfg) (s : sim_cache) (hW : c.WF) (hu : TagUniq c s) :
    (∀ a w, find_way c s a = some w → is_dirty c (flush c s).1 a = some false) ∧
    (∀ r w, r < c.num_rows → w < c.num_ways → s.valid_array r w = true →
      s.dirty_array r w = true →
      ∀ i, (flush c s).1.dram (lineAddr c (s.tag_array r w) r) i = s.data_array r w i) := by
  obtain ⟨hWa, hWr, hrows, hmask⟩ := hW
  constructor
  · intro a w hfind
    have hfwf : find_way c (flush c s).1 a = some w := by
      rw [find_way_congr c s _ a (flush_valid_array c s) (flush_tag_array c s)]
      exact hfind
    unfold is_dirty
    rw [hfwf]
    show some ((flush c s).1.dirty_array (parse_address c a).2.1 w) = some false
    congr 1
    rw [flush_dirty_array, flush_fold_dirty]
    dsimp only
    have hsd : (parse_address c a).2.1 < c.num_rows :=
      parse_set_lt c a ⟨hWa, hWr, hrows, hmask⟩
    obtain ⟨hwW, hval, _⟩ := find_way_some c s a w hfind
    rw [if_pos ⟨(mem_flush_cells c _ _).mpr ⟨hsd, hwW⟩, hval⟩]
  · intro r w hr hwW hval hdirty i
    rw [flush_dram]
    have hothers : ∀ rw ∈ flush_cells c, rw ≠ (r, w) →
        ¬(s.valid_array rw.1 rw.2 = true ∧
          lineAddr c (s.tag_array rw.1 rw.2) rw.1 = lineAddr c (s.tag_array r w) r) := by
      intro rw hmem hne hcon
      have hb := (mem_flush_cells c rw.1 rw.2).mp hmem
      have hinj := lineAddr_inj c (s.tag_array rw.1 rw.2) rw.1 (s.tag_array r w) r
        (by rw [← hrows]; exact hb.1) (by rw [← hrows]; exact hr) hcon.2
      have hr1 : rw.1 = r := hinj.2
      have hv1 : s.valid_array r rw.2 = true := by
        rw [← hr1]
        exact hcon.1
      have ht1 : s.tag_array r rw.2 = s.tag_array r w := by
        have h := hinj.1
        rw [hr1] at h
        exact h
      have hweq : rw.2 = w := hu r hr rw.2 hb.2 w hwW hv1 hval ht1
      exact hne (Prod.ext hr1 hweq)
    have := flush_fold_dram_write c (flush_cells c)
      (s, if c.data_hazard && (s.prev_set == some 0) then 1 else 0) r w
      ((mem_flush_cells c r w).mpr ⟨hr, hwW⟩) hval hdirty hothers
    exact congrFun this i

/-- C7 (witness): flushing a concrete state holding one valid dirty line
leaves the line present and clean and writes its data to DRAM. -/
theorem spec_c7_witness :
    (cfgDh.WF ∧ TagUniq cfgDh stWhit ∧ find_way cfgDh stWhit 0 = some 0 ∧
      stWhit.valid_array 0 0 = true ∧ stWhit.dirty_array 0 0 = true) ∧
    is_dirty cfgDh (flush cfgDh stWhit).1 0 = some false ∧
    (∀ i, (flush cfgDh stWhit).1.dram (lineAddr cfgDh (stWhit.tag_array 0 0) 0) i =
      stWhit.data_array 0 0 i) := by
  refine ⟨⟨by decide, by decide, by decide, by decide, by decide⟩, ?_, ?_⟩
  · exact (spec_c7_flush cfgDh stWhit (by decide) (by decide)).1 0 0 (by decide)
  · exact (spec_c7_flush cfgDh stWhit (by decide) (by decide)).2 0 0 (by decide) (by decide)
      (by decide) (by decide)

end OpenCacheSim
